import Mathlib

/-!
Shallow embedding of `ophydregistry/registry.py` (class `Registry`).

Components are heap objects; we model object identity by `Nat` ids and the
(immutable, for the duration of an operation sequence) attribute structure of
the object graph by a `World`.  The registry's two indexes are association
lists mirroring Python's `OrderedDict` (`_objects_by_name`) and
`dict label -> set` (`_objects_by_label`); we model the strong-reference mode
(`keep_references = True`, `use_typhos = False`).  Python `set`s are modelled
as duplicate-free-by-insertion lists; only membership and cardinality of these
sets are observable in the properties below, never their order.

Recursive methods (`register`, `pop`, `findall`) recurse along the object
graph or along shrinking query strings; the Python originals terminate because
device graphs are finite trees.  The embedding makes this explicit with a
`fuel` parameter: fuel `0` is an artificial out-of-fuel result, and every
statement is made either for all fuels or for a fuel large enough for the
structure at hand.
-/

namespace OphydRegistry

/-- The object heap consumed by the registry (the external component model):
for each object id, its (optional) `name` attribute, its `_ophyd_labels_`
(`getattr` default `[]`), whether it has a `_signals` mapping and its values,
whether it has a `children()` capability and its results, generic attribute
lookup `getattr` (`none` models `AttributeError`), its `parent` attribute and
its optional `connected` attribute (`none` models a missing attribute). -/
structure World where
  nameAttr : Nat → Option String
  labels : Nat → List String
  hasSignals : Nat → Bool
  subs : Nat → List Nat
  hasChildren : Nat → Bool
  children : Nat → List Nat
  attr : Nat → String → Option Nat
  parentAttr : Nat → Option Nat
  connected : Nat → Option Bool

/-- The registry state: `_objects_by_name` (an `OrderedDict name -> object`)
and `_objects_by_label` (a `dict label -> set`). -/
structure RegState where
  byName : List (String × Nat)
  byLabel : List (String × List Nat)
deriving DecidableEq

/-- Fresh state, as produced by `Registry.clear` in strong-reference mode. -/
def emptyState : RegState := ⟨[], []⟩

/-- Dictionary lookup `_objects_by_name[k]` (`none` models `KeyError`). -/
def lookupName (l : List (String × Nat)) (k : String) : Option Nat :=
  match l.find? (fun p => p.1 == k) with
  | some p => some p.2
  | none => none

/-- Dictionary store `_objects_by_name[k] = v`: overwrite in place if the key
exists (OrderedDict keeps the position), else append. -/
def insertName (l : List (String × Nat)) (k : String) (v : Nat) : List (String × Nat) :=
  if (l.find? (fun p => p.1 == k)).isSome then
    l.map (fun p => if p.1 == k then (k, v) else p)
  else
    l ++ [(k, v)]

/-- Dictionary deletion `del _objects_by_name[k]` (with `KeyError` ignored). -/
def eraseName (l : List (String × Nat)) (k : String) : List (String × Nat) :=
  l.filter (fun p => p.1 != k)

/-- Label-set lookup `_objects_by_label[k]` (`none` models `KeyError`). -/
def lookupLabel (l : List (String × List Nat)) (k : String) : Option (List Nat) :=
  match l.find? (fun p => p.1 == k) with
  | some p => some p.2
  | none => none

/-- The set registered under label `k`, empty when absent. -/
def labelSetL (l : List (String × List Nat)) (k : String) : List Nat :=
  (lookupLabel l k).getD []

/-- Registration of `v` under label `k`: create the set when missing, then
`set.add` (a no-op when `v` is already a member). -/
def addLabel (l : List (String × List Nat)) (k : String) (v : Nat) :
    List (String × List Nat) :=
  if (l.find? (fun p => p.1 == k)).isSome then
    l.map (fun p => if p.1 == k then (p.1, if v ∈ p.2 then p.2 else p.2 ++ [v]) else p)
  else
    l ++ [(k, [v])]

/-- `set.discard(v)` applied to every label set (the removal loop of
`Registry.pop`). -/
def discardAll (l : List (String × List Nat)) (v : Nat) : List (String × List Nat) :=
  l.map (fun p => (p.1, p.2.filter (fun d => d ≠ v)))

/-- `remove_duplicates(items) = list(set(items))`: one copy of every distinct
element (we keep first occurrences; the Python `set` order is arbitrary and
never observable in the verified properties). -/
def remove_duplicates (items : List Nat) : List Nat :=
  items.foldl (fun acc d => if d ∈ acc then acc else acc ++ [d]) []

/-- The readback-alias test of `Registry.register`: is `c` one of
`old.readback`, `old.user_readback`, `old.val`?  (A missing attribute yields
Python `None`, which is never the component.) -/
def isReadback (w : World) (old c : Nat) : Bool :=
  w.attr old "readback" == some c ||
    w.attr old "user_readback" == some c ||
    w.attr old "val" == some c

/-- The sub-component probe of `Registry.register`: `_signals.items()` values
for a vanilla ophyd device, else `children()` for an ophyd-async device, else
no children. -/
def subComponents (w : World) (c : Nat) : List Nat :=
  if w.hasSignals c then w.subs c
  else if w.hasChildren c then w.children c
  else []

/-- The sub-component probe of `Registry.pop`:
`getattr(obj, "_signals", {})` only. -/
def popSubs (w : World) (c : Nat) : List Nat :=
  if w.hasSignals c then w.subs c else []

/-- The stale-key reconciliation of `Registry.register`: collect every key
still mapping to this component and delete those entries (the component may
have been registered under a previous name). -/
def removeOldKeys (B : List (String × Nat)) (c : Nat) : List (String × Nat) :=
  ((B.filter (fun p => p.2 == c)).map (fun p => p.1)).foldl
    (fun m k => eraseName m k) B

/-- The label list used for registration: the `labels` argument if given, else
`getattr(component, "_ophyd_labels_", [])`. -/
def regLabels (w : World) (c : Nat) (lbls : Option (List String)) : List String :=
  match lbls with
  | none => w.labels c
  | some ls => ls

/-- The accepted-registration tail of `Registry.register` (everything after
the duplicate checks): the duplicate warning, removal of stale keys that still
map to this component, insertion under the (non-empty) name, label
registration, and the recursion over sub-components.  `rec` is the recursive
registration call at one fuel less; children are registered with
`labels = None` and `warn_duplicates = not is_duplicate and warn_duplicates`. -/
def registerAccept (w : World) (rec : RegState → Nat → Option Bool → RegState × List String)
    (s : RegState) (c : Nat) (lbls : Option (List String)) (name : String)
    (isDup : Bool) (wd : Bool) : RegState × List String :=
  let warns : List String := if isDup && wd then [name] else []
  let bn1 := removeOldKeys s.byName c
  let bn2 := if name ≠ "" then insertName bn1 name c else bn1
  let bl2 := (regLabels w c lbls).foldl (fun m lb => addLabel m lb c) s.byLabel
  (subComponents w c).foldl
    (fun acc d =>
      let r := rec acc.1 d (some ((!isDup) && wd))
      (r.1, acc.2 ++ r.2))
    (⟨bn2, bl2⟩, warns)

/-- `Registry.register(component, labels, warn_duplicates)` for an instance
(the class branch, which only installs an instantiation hook, is out of
scope).  `cfgWarn` is the registry's `warn_duplicates` attribute; the returned
list collects the names for which a duplicate-name `warnings.warn` was raised.
The early returns: no `name` attribute (skip unnamed component), a readback
alias of the incumbent, and the incumbent being this very component. -/
def register (w : World) (cfgWarn : Bool) :
    Nat → RegState → Nat → Option (List String) → Option Bool → RegState × List String
  | 0, s, _, _, _ => (s, [])
  | fuel + 1, s, c, lbls, warnDup =>
    let wd := warnDup.getD cfgWarn
    match w.nameAttr c with
    | none => (s, [])
    | some name =>
      match lookupName s.byName name with
      | some old =>
        if isReadback w old c then (s, [])
        else if old = c then (s, [])
        else registerAccept w (fun s2 d wdc => register w cfgWarn fuel s2 d none wdc)
          s c lbls name true wd
      | none => registerAccept w (fun s2 d wdc => register w cfgWarn fuel s2 d none wdc)
          s c lbls name false wd

/-- A query value handed to `find` / `findall` / `pop`: an already resolved
component (`_is_resolved` is true exactly for these), a string, or a non-string
sequence of query values. -/
inductive Query where
  | dev : Nat → Query
  | str : String → Query
  | list : List Query → Query

/-- The error taxonomy of the resolver.  `ComponentNotFound` and
`MultipleComponentsFound` come from `exceptions.py`; `attributeError` is a
Python `AttributeError` escaping a dotted-path traversal; `invalidLabel`
(`InvalidComponentLabel`, raised on a `TypeError` from an unhashable label) is
unreachable for the query values representable here; `fuelExhausted` is an
artifact of the fuelled embedding, produced by no Python code path. -/
inductive RegError where
  | notFound
  | multipleFound
  | invalidLabel
  | attributeError : String → RegError
  | fuelExhausted
deriving DecidableEq

deriving instance DecidableEq for Except

/-- The dotted-path filter: `for attr in attrs: cpt_ = getattr(cpt_, attr)`.
A missing attribute raises `AttributeError` (it is caught nowhere in the
resolver). -/
def traverse (w : World) : Nat → List String → Except RegError Nat
  | d, [] => .ok d
  | d, a :: rest =>
    match w.attr d a with
    | some d2 => traverse w d2 rest
    | none => .error (.attributeError a)

/-- Helper for `str.split(".")`: split a character list on dots, keeping empty
segments like Python does. -/
def splitDotAux : List Char → List Char → List (List Char)
  | [], acc => [acc.reverse]
  | ch :: rest, acc =>
    if ch = '.' then acc.reverse :: splitDotAux rest []
    else splitDotAux rest (ch :: acc)

/-- Python `s.split(".")` by code points (`"".split(".") == [""]`; the result
is never empty). -/
def pySplitDot (s : String) : List String :=
  (splitDotAux s.toList []).map (fun cs => String.mk cs)

/-- Python `name[-13:]`: the last 13 characters (the whole string if shorter). -/
def pyTail13 (s : String) : String :=
  String.mk (s.toList.drop (s.toList.length - 13))

/-- Python `name[:-14]`: everything but the last 14 characters (empty if the
string is that short). -/
def pyDropLast14 (s : String) : String :=
  String.mk (s.toList.take (s.toList.length - 14))

/-- Python `s.strip("_")`: remove leading and trailing underscores. -/
def stripUnderscores (s : String) : String :=
  String.mk (((s.toList.dropWhile (fun ch => ch = '_')).reverse.dropWhile
    (fun ch => ch = '_')).reverse)

/-- The tail of `Registry.find` applied to the `findall` result: exactly one
match is returned, more than one raises `MultipleComponentsFound`, zero
yields the sentinel `None`. -/
def findPost (r : Except RegError (List Nat)) : Except RegError (Option Nat) :=
  match r with
  | .error e => .error e
  | .ok rs =>
    if rs.length = 1 then .ok rs.head?
    else if 1 < rs.length then .error .multipleFound
    else .ok none

/-- `Registry._findall_by_label(label, allow_none)`.  `reFind` is `findall` at
one fuel less (`reFind anyOf label name allowNone`).  A resolved component is
yielded as is; a sequence recurses through `findall(label=..., allow_none=...)`;
a string is split on dots, the head is looked up in the label index (`KeyError`
yields nothing) and the remaining segments are traversed on every member. -/
def findByLabelF (w : World) (s : RegState)
    (reFind : Option Query → Option Query → Option Query → Bool →
      Except RegError (List Nat)) :
    Query → Bool → Except RegError (List Nat)
  | Query.dev d, _ => .ok [d]
  | Query.list qs, allowNone =>
    qs.foldlM (fun acc q => do
      let r ← reFind none (some q) none allowNone
      pure (acc ++ r)) []
  | Query.str lbl, _ =>
    match pySplitDot lbl with
    | [] => .ok []
    | l :: attrs =>
      match lookupLabel s.byLabel l with
      | none => .ok []
      | some ds =>
        ds.foldlM (fun acc d => do
          let r ← traverse w d attrs
          pure (acc ++ [r])) []

/-- `Registry._findall_by_name(name)`.  A resolved component is yielded as is;
a name whose last 13 characters are `user_readback` is resolved by finding the
stripped prefix with `find(name=...)` (inlined here as `findPost` over the
recursive `findall`) and taking its `user_readback` attribute; a sequence
recurses through `findall(name=...)` with the default `allow_none = False`;
otherwise the string is split on dots, the head looked up in the name index
(`KeyError` yields nothing) and the rest traversed. -/
def findByNameF (w : World) (s : RegState)
    (reFind : Option Query → Option Query → Option Query → Bool →
      Except RegError (List Nat)) :
    Query → Except RegError (List Nat)
  | Query.dev d => .ok [d]
  | Query.list qs =>
    qs.foldlM (fun acc q => do
      let r ← reFind none none (some q) false
      pure (acc ++ r)) []
  | Query.str nm =>
    if pyTail13 nm = "user_readback" then
      match findPost (reFind none none
          (some (Query.str (stripUnderscores (pyDropLast14 nm)))) false) with
      | .error e => .error e
      | .ok none => .error (.attributeError "user_readback")
      | .ok (some p) =>
        match w.attr p "user_readback" with
        | some r => .ok [r]
        | none => .error (.attributeError "user_readback")
    else
      match pySplitDot nm with
      | [] => .ok []
      | n :: attrs =>
        match lookupName s.byName n with
        | none => .ok []
        | some d =>
          match traverse w d attrs with
          | .ok r => .ok [r]
          | .error e => .error e

/-- The tail of `Registry.findall` applied to the flattened generator output:
an empty result with `allow_none = False` raises `ComponentNotFound`, else the
result is deduplicated (`list(set(devices))`); an exception from a generator
propagates. -/
def finishFindall (allowNone : Bool) (gathered : Except RegError (List Nat)) :
    Except RegError (List Nat) :=
  match gathered with
  | .error e => .error e
  | .ok devices =>
    if devices.length = 0 ∧ allowNone = false then .error .notFound
    else .ok (remove_duplicates devices)

/-- `Registry.findall(any_of, label=, name=, allow_none=)`.  A sequence given
as `any_of` is resolved element by element (ignoring the other keywords, as in
the source); otherwise the label sub-resolver runs on `label or any_of` and the
name sub-resolver on `name or any_of`, in that order, and their concatenation
is deduplicated.  An empty result with `allow_none = False` raises
`ComponentNotFound`. -/
def findallQ (w : World) (s : RegState) :
    Nat → Option Query → Option Query → Option Query → Bool →
      Except RegError (List Nat)
  | 0, _, _, _, _ => .error .fuelExhausted
  | fuel + 1, anyOf, label, name, allowNone =>
    let reFind := fun a l n b => findallQ w s fuel a l n b
    finishFindall allowNone
      (match anyOf with
       | some (Query.list qs) =>
         qs.foldlM (fun acc q => do
           let r ← reFind (some q) none none allowNone
           pure (acc ++ r)) []
       | _ => do
         let lq := match label with
           | some l => some l
           | none => anyOf
         let nq := match name with
           | some n => some n
           | none => anyOf
         let rl ← match lq with
           | some l => findByLabelF w s reFind l allowNone
           | none => pure []
         let rn ← match nq with
           | some n => findByNameF w s reFind n
           | none => pure []
         pure (rl ++ rn))

/-- `Registry.find(any_of, label=, name=, allow_none=)`: `findall` constrained
to a single result. -/
def findQ (w : World) (s : RegState) (fuel : Nat)
    (anyOf label name : Option Query) (allowNone : Bool) :
    Except RegError (Option Nat) :=
  findPost (findallQ w s fuel anyOf label name allowNone)

/-- The state mutation of `Registry.pop` once the object is resolved: delete
the name-index entry under the object's current name (`KeyError` and
`AttributeError` ignored), discard the object from every label set, then
recursively pop every member of `getattr(obj, "_signals", {})` (each child is
resolved by `self.pop(cpt)`, whose `find` step on an already resolved object is
the identity). -/
def popDevice (w : World) : Nat → RegState → Nat → RegState
  | 0, s, _ => s
  | fuel + 1, s, d =>
    let bn := match w.nameAttr d with
      | none => s.byName
      | some n => eraseName s.byName n
    let bl := discardAll s.byLabel d
    (popSubs w d).foldl (fun st d2 => popDevice w fuel st d2) ⟨bn, bl⟩

/-- `Registry.pop(key, default)`: resolve `key` through `find` (returning the
default on `ComponentNotFound` when one was supplied), then remove the
resolved object and its `_signals` subtree.  The `.ok none` arm of the `find`
result is unreachable because the lookup runs with `allow_none = False`. -/
def popQ (w : World) (fuel : Nat) (s : RegState) (key : Query)
    (dflt : Option Nat) : Except RegError (Nat × RegState) :=
  match findQ w s fuel (some key) none none false with
  | .error RegError.notFound =>
    match dflt with
    | some d => .ok (d, s)
    | none => .error RegError.notFound
  | .error e => .error e
  | .ok none => .error RegError.notFound
  | .ok (some obj) => .ok (obj, popDevice w fuel s obj)

/-- `Registry.root_devices`: the distinct name-index values whose `parent` is
`None` (a Python `set`; only membership is observable). -/
def rootDevices (w : World) (s : RegState) : List Nat :=
  remove_duplicates ((s.byName.map (fun p => p.2)).filter
    (fun d => (w.parentAttr d).isNone))

/-- The waiting loop of `Registry.pop_disconnected`, discretised: `conn k d`
is the value of `getattr(d, "connected", ...)` observed at the k-th sampling
(`none` models a missing attribute, treated as connected), and `rounds` is the
number of samplings the timeout budget allows (at least one, since
`timeout_reached` starts out false).  Each pass keeps the components reporting
`connected == False`; an empty remainder ends the loop at once. -/
def pollLoop (conn : Nat → Nat → Option Bool) : Nat → Nat → List Nat → List Nat
  | _, 0, remaining => remaining
  | k, n + 1, remaining =>
    let rem2 := remaining.filter (fun d => !((conn k d).getD true))
    if rem2.isEmpty then rem2
    else if n = 0 then rem2
    else pollLoop conn (k + 1) n rem2

/-- `Registry.pop_disconnected(timeout)`: poll the root devices, then pop every
component still in the candidate set and return the list of removed
components together with the final state. -/
def pop_disconnected (w : World) (conn : Nat → Nat → Option Bool) (rounds : Nat)
    (fuel : Nat) (s : RegState) : List Nat × RegState :=
  let remaining := pollLoop conn 0 rounds (rootDevices w s)
  (remaining, remaining.foldl (fun st d => popDevice w fuel st d) s)

/-- One public mutating operation of the registry. -/
inductive Op where
  | reg : Nat → Option (List String) → Option Bool → Op
  | popOp : Query → Option Nat → Op
  | clearOp : Op

/-- Apply one operation to the state (an operation that raises leaves the
state it had already built; `pop` mutates only after a successful `find`, so
its error case leaves the state unchanged). -/
def applyOp (w : World) (cfgWarn : Bool) (fuel : Nat) (s : RegState) : Op → RegState
  | Op.reg c lbls wdup => (register w cfgWarn fuel s c lbls wdup).1
  | Op.popOp key dflt =>
    match popQ w fuel s key dflt with
    | .ok r => r.2
    | .error _ => s
  | Op.clearOp => emptyState

/-- Run a sequence of mutating operations. -/
def runOps (w : World) (cfgWarn : Bool) (fuel : Nat) : List Op → RegState → RegState
  | [], s => s
  | op :: ops, s => runOps w cfgWarn fuel ops (applyOp w cfgWarn fuel s op)

/-! ### Association-list lemmas for the two indexes -/

@[simp] theorem lookupName_nil (k : String) : lookupName [] k = none := rfl

theorem lookupName_cons (a : String × Nat) (t : List (String × Nat)) (k : String) :
    lookupName (a :: t) k = if a.1 = k then some a.2 else lookupName t k := by
  by_cases h : a.1 = k
  · simp [lookupName, List.find?, h]
  · simp only [lookupName, List.find?]
    have : (a.1 == k) = false := by simpa using h
    simp [this, h]

theorem lookupName_eq_none_iff (l : List (String × Nat)) (k : String) :
    lookupName l k = none ↔ ∀ p ∈ l, p.1 ≠ k := by
  induction l with
  | nil => simp
  | cons a t ih =>
    rw [lookupName_cons]
    by_cases h : a.1 = k
    · simp [h]
    · simp [h, ih]

theorem lookupName_mem {l : List (String × Nat)} {k : String} {v : Nat}
    (h : lookupName l k = some v) : (k, v) ∈ l := by
  induction l with
  | nil => simp at h
  | cons a t ih =>
    rw [lookupName_cons] at h
    by_cases ha : a.1 = k
    · rw [if_pos ha] at h
      injection h with hv
      have : (k, v) = a := by
        cases a
        simp_all
      rw [this]
      exact List.mem_cons_self _ _
    · rw [if_neg ha] at h
      exact List.mem_cons_of_mem _ (ih h)

theorem lookupName_append_some {l t : List (String × Nat)} {k : String} {v : Nat}
    (h : lookupName l k = some v) : lookupName (l ++ t) k = some v := by
  induction l with
  | nil => simp at h
  | cons a l2 ih =>
    rw [lookupName_cons] at h
    rw [List.cons_append, lookupName_cons]
    by_cases ha : a.1 = k
    · simpa [ha] using h
    · rw [if_neg ha] at h ⊢
      exact ih h

theorem lookupName_append_none {l t : List (String × Nat)} {k : String}
    (h : lookupName l k = none) : lookupName (l ++ t) k = lookupName t k := by
  induction l with
  | nil => simp
  | cons a l2 ih =>
    rw [lookupName_cons] at h
    by_cases ha : a.1 = k
    · simp [ha] at h
    · rw [List.cons_append, lookupName_cons, if_neg ha]
      exact ih (by simpa [ha] using h)

theorem insertName_lookup_self (l : List (String × Nat)) (k : String) (v : Nat) :
    lookupName (insertName l k v) k = some v := by
  unfold insertName
  by_cases h : (l.find? (fun p => p.1 == k)).isSome
  · rw [if_pos h]
    induction l with
    | nil => simp at h
    | cons a t ih =>
      by_cases ha : a.1 = k
      · simp [lookupName_cons, ha]
      · have hfind : (List.find? (fun p => p.1 == k) (a :: t)) =
            List.find? (fun p => p.1 == k) t := by
          have : ((fun (p : String × Nat) => p.1 == k) a) = false := by simpa using ha
          simp [List.find?, this]
        rw [List.map_cons, lookupName_cons]
        have ha2 : (if (a.1 == k) = true then (k, v) else a).1 ≠ k := by
          simp [ha]
        rw [if_neg ha2]
        exact ih (by rw [← hfind]; exact h)
  · rw [if_neg h]
    have hnone : lookupName l k = none := by
      unfold lookupName
      cases hf : l.find? (fun p => p.1 == k) with
      | none => rfl
      | some p => rw [hf] at h; simp at h
    rw [lookupName_append_none hnone, lookupName_cons]
    simp

theorem insertName_lookup_ne (l : List (String × Nat)) (k k2 : String) (v : Nat)
    (h : k2 ≠ k) : lookupName (insertName l k v) k2 = lookupName l k2 := by
  unfold insertName
  by_cases hs : (l.find? (fun p => p.1 == k)).isSome
  · rw [if_pos hs]
    clear hs
    induction l with
    | nil => simp
    | cons a t ih =>
      rw [List.map_cons, lookupName_cons, lookupName_cons]
      by_cases ha : a.1 = k
      · have : (if (a.1 == k) = true then (k, v) else a) = (k, v) := by simp [ha]
        rw [this]
        simp only []
        rw [if_neg (by simpa using (Ne.symm h)), if_neg (by rw [ha]; exact Ne.symm h)]
        exact ih
      · have : (if (a.1 == k) = true then (k, v) else a) = a := by simp [ha]
        rw [this]
        by_cases ha2 : a.1 = k2
        · simp [ha2]
        · rw [if_neg ha2, if_neg ha2]
          exact ih
  · rw [if_neg hs]
    cases hl : lookupName l k2 with
    | some p => exact lookupName_append_some hl
    | none =>
      rw [lookupName_append_none hl, lookupName_cons]
      simp [Ne.symm h]

theorem mem_insertName {l : List (String × Nat)} {k : String} {v : Nat}
    {p : String × Nat} (h : p ∈ insertName l k v) : p ∈ l ∨ p = (k, v) := by
  unfold insertName at h
  by_cases hs : (l.find? (fun p => p.1 == k)).isSome
  · rw [if_pos hs] at h
    rcases List.mem_map.mp h with ⟨q, hq, hqe⟩
    by_cases hk : q.1 = k
    · right
      rw [← hqe]
      simp [hk]
    · left
      have : (if (q.1 == k) = true then (k, v) else q) = q := by simp [hk]
      rw [this] at hqe
      rwa [← hqe]
  · rw [if_neg hs] at h
    rcases List.mem_append.mp h with h1 | h1
    · exact Or.inl h1
    · exact Or.inr (List.mem_singleton.mp h1)

theorem eraseName_lookup_self (l : List (String × Nat)) (k : String) :
    lookupName (eraseName l k) k = none := by
  rw [lookupName_eq_none_iff]
  intro p hp
  have := List.of_mem_filter hp
  simpa using this

theorem eraseName_lookup_ne (l : List (String × Nat)) (k k2 : String)
    (h : k2 ≠ k) : lookupName (eraseName l k) k2 = lookupName l k2 := by
  induction l with
  | nil => rfl
  | cons a t ih =>
    by_cases ha : a.1 = k
    · have hcond : (a.1 != k) = false := by simpa using ha
      have : eraseName (a :: t) k = eraseName t k := by
        simp [eraseName, List.filter_cons, hcond]
      rw [this, ih, lookupName_cons, if_neg (by rw [ha]; exact Ne.symm h)]
    · have hcond : (a.1 != k) = true := by simpa using ha
      have : eraseName (a :: t) k = a :: eraseName t k := by
        simp [eraseName, List.filter_cons, hcond]
      rw [this, lookupName_cons, lookupName_cons]
      by_cases ha2 : a.1 = k2
      · simp [ha2]
      · rw [if_neg ha2, if_neg ha2, ih]

theorem mem_eraseName {l : List (String × Nat)} {k : String} {p : String × Nat}
    (h : p ∈ eraseName l k) : p ∈ l :=
  List.mem_of_mem_filter h

theorem foldl_eraseName_mem {ks : List String} {l : List (String × Nat)}
    {p : String × Nat} (h : p ∈ ks.foldl (fun m k => eraseName m k) l) : p ∈ l := by
  induction ks generalizing l with
  | nil => simpa using h
  | cons a t ih => exact mem_eraseName (ih h)

theorem foldl_eraseName_lookup {ks : List String} {l : List (String × Nat)}
    {k : String} (h : k ∉ ks) :
    lookupName (ks.foldl (fun m k => eraseName m k) l) k = lookupName l k := by
  induction ks generalizing l with
  | nil => rfl
  | cons a t ih =>
    have hka : k ≠ a := fun he => h (he ▸ List.mem_cons_self a t)
    have hkt : k ∉ t := fun ht => h (List.mem_cons_of_mem a ht)
    simp only [List.foldl_cons]
    rw [ih hkt, eraseName_lookup_ne _ _ _ hka]

@[simp] theorem lookupLabel_nil (k : String) : lookupLabel [] k = none := rfl

theorem lookupLabel_cons (a : String × List Nat) (t : List (String × List Nat))
    (k : String) :
    lookupLabel (a :: t) k = if a.1 = k then some a.2 else lookupLabel t k := by
  by_cases h : a.1 = k
  · simp [lookupLabel, List.find?, h]
  · simp only [lookupLabel, List.find?]
    have : (a.1 == k) = false := by simpa using h
    simp [this, h]

theorem lookupLabel_isSome_iff (l : List (String × List Nat)) (k : String) :
    (l.find? (fun p => p.1 == k)).isSome ↔ (lookupLabel l k).isSome := by
  unfold lookupLabel
  cases l.find? (fun p => p.1 == k) <;> simp

theorem lookupLabel_append_some {l t : List (String × List Nat)} {k : String}
    {v : List Nat} (h : lookupLabel l k = some v) :
    lookupLabel (l ++ t) k = some v := by
  induction l with
  | nil => simp at h
  | cons a l2 ih =>
    rw [lookupLabel_cons] at h
    rw [List.cons_append, lookupLabel_cons]
    by_cases ha : a.1 = k
    · simpa [ha] using h
    · rw [if_neg ha] at h ⊢
      exact ih h

theorem lookupLabel_append_none {l t : List (String × List Nat)} {k : String}
    (h : lookupLabel l k = none) :
    lookupLabel (l ++ t) k = lookupLabel t k := by
  induction l with
  | nil => simp
  | cons a l2 ih =>
    rw [lookupLabel_cons] at h
    by_cases ha : a.1 = k
    · simp [ha] at h
    · rw [List.cons_append, lookupLabel_cons, if_neg ha]
      exact ih (by simpa [ha] using h)

theorem lookupLabel_of_find?_none {l : List (String × List Nat)} {k : String}
    (h : ¬ (l.find? (fun p => p.1 == k)).isSome) : lookupLabel l k = none := by
  unfold lookupLabel
  rcases hf : l.find? (fun p => p.1 == k) with _ | p
  · rw [hf]
  · rw [hf] at h
    simp at h

/-- Value-mapping applied only at key `k` (the shape of `addLabel` when the
key exists) commutes with lookup. -/
theorem lookupLabel_mapAt (l : List (String × List Nat)) (k k2 : String)
    (g : List Nat → List Nat) :
    lookupLabel (l.map (fun p => if p.1 == k then (p.1, g p.2) else p)) k2 =
      if k2 = k then (lookupLabel l k2).map g else lookupLabel l k2 := by
  induction l with
  | nil => by_cases h : k2 = k <;> simp [h]
  | cons a t ih =>
    have hkey : (if (a.1 == k) = true then (a.1, g a.2) else a).1 = a.1 := by
      by_cases h : a.1 = k <;> simp [h]
    rw [List.map_cons, lookupLabel_cons, hkey, lookupLabel_cons]
    by_cases ha : a.1 = k2
    · rw [if_pos ha, if_pos ha]
      by_cases hk : k2 = k
      · have : (a.1 == k) = true := by simp [ha, hk]
        simp [this, hk]
      · have : (a.1 == k) = false := by simp [ha, hk]
        simp [this, hk]
    · rw [if_neg ha, if_neg ha, ih]

theorem mem_labelSetL_addLabel (bl : List (String × List Nat)) (k k2 : String)
    (v d : Nat) :
    d ∈ labelSetL (addLabel bl k v) k2 ↔
      d ∈ labelSetL bl k2 ∨ (d = v ∧ k2 = k) := by
  unfold addLabel
  by_cases hs : (bl.find? (fun p => p.1 == k)).isSome
  · rw [if_pos hs]
    unfold labelSetL
    rw [lookupLabel_mapAt bl k k2 (fun ds => if v ∈ ds then ds else ds ++ [v])]
    by_cases hk : k2 = k
    · subst hk
      rw [if_pos rfl]
      rcases hsome : lookupLabel bl k2 with _ | ds
      · rw [lookupLabel_isSome_iff] at hs
        rw [hsome] at hs
        simp at hs
      · by_cases hv : v ∈ ds
        · simp only [Option.map_some', Option.getD_some, if_pos hv]
          constructor
          · exact fun h => Or.inl h
          · rintro (h | ⟨rfl, -⟩)
            · exact h
            · exact hv
        · simp only [Option.map_some', Option.getD_some, if_neg hv,
            List.mem_append, List.mem_singleton]
          tauto
    · rw [if_neg hk]
      simp [hk]
  · rw [if_neg hs]
    unfold labelSetL
    have hnone : lookupLabel bl k = none := lookupLabel_of_find?_none hs
    by_cases hk : k2 = k
    · subst hk
      rw [hnone, lookupLabel_append_none hnone, lookupLabel_cons]
      simp
    · rcases hsome : lookupLabel bl k2 with _ | ds
      · rw [lookupLabel_append_none hsome, lookupLabel_cons]
        simp [Ne.symm hk, hk]
      · rw [lookupLabel_append_some hsome]
        simp [hk]

theorem lookupLabel_discardAll (bl : List (String × List Nat)) (v : Nat)
    (k : String) :
    lookupLabel (discardAll bl v) k =
      (lookupLabel bl k).map (fun ds => ds.filter (fun d => d ≠ v)) := by
  induction bl with
  | nil => simp [discardAll]
  | cons a t ih =>
    unfold discardAll at ih ⊢
    rw [List.map_cons, lookupLabel_cons, lookupLabel_cons]
    by_cases ha : a.1 = k
    · simp only [ha, if_pos rfl]
      rfl
    · simp only [if_neg ha]
      exact ih

theorem mem_labelSetL_discardAll (bl : List (String × List Nat)) (v d : Nat)
    (k : String) :
    d ∈ labelSetL (discardAll bl v) k ↔ d ∈ labelSetL bl k ∧ d ≠ v := by
  unfold labelSetL
  rw [lookupLabel_discardAll]
  rcases lookupLabel bl k with _ | ds
  · simp
  · simp [List.mem_filter]

theorem mem_labelSetL_foldl_addLabel (ls : List String)
    (bl : List (String × List Nat)) (c d : Nat) (k : String) :
    d ∈ labelSetL (ls.foldl (fun m lb => addLabel m lb c) bl) k ↔
      d ∈ labelSetL bl k ∨ (d = c ∧ k ∈ ls) := by
  induction ls generalizing bl with
  | nil => simp
  | cons a t ih =>
    rw [List.foldl_cons, ih, mem_labelSetL_addLabel]
    constructor
    · rintro ((h | ⟨rfl, rfl⟩) | ⟨rfl, hk⟩)
      · exact Or.inl h
      · exact Or.inr ⟨rfl, List.mem_cons_self _ _⟩
      · exact Or.inr ⟨rfl, List.mem_cons_of_mem _ hk⟩
    · rintro (h | ⟨rfl, hk⟩)
      · exact Or.inl (Or.inl h)
      · rcases List.mem_cons.mp hk with rfl | hk2
        · exact Or.inl (Or.inr ⟨rfl, rfl⟩)
        · exact Or.inr ⟨rfl, hk2⟩

/-! ### Deduplication lemmas -/

theorem mem_dedup_foldl (l acc : List Nat) (d : Nat) :
    d ∈ l.foldl (fun acc d => if d ∈ acc then acc else acc ++ [d]) acc ↔
      d ∈ acc ∨ d ∈ l := by
  induction l generalizing acc with
  | nil => simp
  | cons a t ih =>
    rw [List.foldl_cons, ih]
    by_cases ha : a ∈ acc
    · simp only [if_pos ha, List.mem_cons]
      constructor
      · rintro (h | h)
        · exact Or.inl h
        · exact Or.inr (Or.inr h)
      · rintro (h | rfl | h)
        · exact Or.inl h
        · exact Or.inl ha
        · exact Or.inr h
    · simp only [if_neg ha, List.mem_append, List.mem_singleton, List.mem_cons]
      tauto

theorem mem_remove_duplicates (l : List Nat) (d : Nat) :
    d ∈ remove_duplicates l ↔ d ∈ l := by
  unfold remove_duplicates
  rw [mem_dedup_foldl]
  simp

theorem remove_duplicates_ne_nil {l : List Nat} (h : l ≠ []) :
    remove_duplicates l ≠ [] := by
  rcases l with _ | ⟨a, t⟩
  · exact absurd rfl h
  · have : a ∈ remove_duplicates (a :: t) := by
      rw [mem_remove_duplicates]
      exact List.mem_cons_self _ _
    exact List.ne_nil_of_mem this

theorem two_le_length_of_mem_ne {l : List Nat} {a b : Nat}
    (ha : a ∈ l) (hb : b ∈ l) (hne : a ≠ b) : 2 ≤ l.length := by
  match l with
  | [] => simp at ha
  | [x] =>
    rw [List.mem_singleton] at ha hb
    exact absurd (ha.trans hb.symm) hne
  | x :: y :: t => simp [List.length_cons]

/-! ### Unfolding lemmas for the registration pipeline and pop -/

theorem register_zero (w : World) (cfg : Bool) (s : RegState) (c : Nat)
    (lbls : Option (List String)) (wd : Option Bool) :
    register w cfg 0 s c lbls wd = (s, []) := rfl

theorem register_noName (w : World) (cfg : Bool) (f : Nat) (s : RegState) (c : Nat)
    (lbls : Option (List String)) (wd : Option Bool) (h : w.nameAttr c = none) :
    register w cfg (f + 1) s c lbls wd = (s, []) := by
  simp [register, h]

theorem register_readback (w : World) (cfg : Bool) (f : Nat) (s : RegState)
    (c old : Nat) (n : String) (lbls : Option (List String)) (wd : Option Bool)
    (h1 : w.nameAttr c = some n) (h2 : lookupName s.byName n = some old)
    (h3 : isReadback w old c = true) :
    register w cfg (f + 1) s c lbls wd = (s, []) := by
  simp [register, h1, h2, h3]

theorem register_same (w : World) (cfg : Bool) (f : Nat) (s : RegState)
    (c : Nat) (n : String) (lbls : Option (List String)) (wd : Option Bool)
    (h1 : w.nameAttr c = some n) (h2 : lookupName s.byName n = some c)
    (h3 : isReadback w c c = false) :
    register w cfg (f + 1) s c lbls wd = (s, []) := by
  simp [register, h1, h2, h3]

theorem register_dup (w : World) (cfg : Bool) (f : Nat) (s : RegState)
    (c old : Nat) (n : String) (lbls : Option (List String)) (wd : Option Bool)
    (h1 : w.nameAttr c = some n) (h2 : lookupName s.byName n = some old)
    (h3 : isReadback w old c = false) (h4 : old ≠ c) :
    register w cfg (f + 1) s c lbls wd =
      registerAccept w (fun s2 d wdc => register w cfg f s2 d none wdc)
        s c lbls n true (wd.getD cfg) := by
  simp [register, h1, h2, h3, h4]

theorem register_fresh (w : World) (cfg : Bool) (f : Nat) (s : RegState)
    (c : Nat) (n : String) (lbls : Option (List String)) (wd : Option Bool)
    (h1 : w.nameAttr c = some n) (h2 : lookupName s.byName n = none) :
    register w cfg (f + 1) s c lbls wd =
      registerAccept w (fun s2 d wdc => register w cfg f s2 d none wdc)
        s c lbls n false (wd.getD cfg) := by
  simp [register, h1, h2]

theorem popDevice_zero (w : World) (s : RegState) (d : Nat) :
    popDevice w 0 s d = s := rfl

theorem popDevice_succ (w : World) (f : Nat) (s : RegState) (d : Nat) :
    popDevice w (f + 1) s d =
      (popSubs w d).foldl (fun st d2 => popDevice w f st d2)
        ⟨(match w.nameAttr d with
          | none => s.byName
          | some n => eraseName s.byName n), discardAll s.byLabel d⟩ := rfl

/-! ### Claim C8: re-registering the same component -/

/-- Concrete world for C8: component `0` (named `n`) carries a `_signals`
child `1` whose name is also `n` but which is not a readback alias of `0`. -/
def wC8 : World :=
  ⟨fun d => if d = 0 ∨ d = 1 then some "n" else none,
   fun _ => [],
   fun d => d == 0,
   fun d => if d = 0 then [1] else [],
   fun _ => false,
   fun _ => [],
   fun _ _ => none,
   fun _ => none,
   fun _ => none⟩

/-- C8 counterexample: registering the very same component object `0` a second
time is not warning-free.  After the first `register(0)` the name index holds
the child `1` under the shared name `n` (the child displaced its parent), so
the second `register(0)` takes the duplicate branch and raises a duplicate
warning (the returned warning list is `["n"]`, not `[]`), refuting the claim
that re-registration never warns. -/
theorem register_same_component_warns_example :
    (register wC8 true 2 emptyState 0 none none).1 = RegState.mk [("n", 1)] [] ∧
      register wC8 true 2 (RegState.mk [("n", 1)] []) 0 none none =
        (RegState.mk [("n", 1)] [], ["n"]) := by
  constructor
  · decide
  · decide

/-- C8 (amended): whenever the component is still the name-index entry under
its own name — which is always the case unless one of its sub-components
shares its name without being a readback alias — registering it again is a
complete no-op: the state is returned unchanged and no duplicate warning is
raised, so `component_names` and all `findall` results are unchanged. -/
theorem register_incumbent_idempotent (w : World) (cfg : Bool) (f : Nat)
    (s : RegState) (c : Nat) (n : String) (lbls : Option (List String))
    (wd : Option Bool) (h1 : w.nameAttr c = some n)
    (h2 : lookupName s.byName n = some c) :
    register w cfg (f + 1) s c lbls wd = (s, []) := by
  rcases h3 : isReadback w c c with _ | _
  · exact register_same w cfg f s c n lbls wd h1 h2 h3
  · exact register_readback w cfg f s c c n lbls wd h1 h2 h3

/-- C8 witness: the amended idempotence theorem applied at a concrete
registered component. -/
theorem register_incumbent_idempotent_witness :
    wC8.nameAttr 1 = some "n" ∧
      lookupName (RegState.mk [("n", 1)] []).byName "n" = some 1 ∧
      register wC8 true 3 (RegState.mk [("n", 1)] []) 1 none none =
        (RegState.mk [("n", 1)] [], []) :=
  ⟨by decide, by decide,
    register_incumbent_idempotent wC8 true 2 (RegState.mk [("n", 1)] []) 1 "n"
      none none (by decide) (by decide)⟩

theorem mem_removeOldKeys {B : List (String × Nat)} {c : Nat} {p : String × Nat}
    (h : p ∈ removeOldKeys B c) : p ∈ B :=
  foldl_eraseName_mem h

theorem removeOldKeys_lookup {B : List (String × Nat)} {c : Nat} {n : String}
    (h : ∀ p ∈ B, p.1 = n → p.2 ≠ c) :
    lookupName (removeOldKeys B c) n = lookupName B n := by
  unfold removeOldKeys
  apply foldl_eraseName_lookup
  intro hmem
  rcases List.mem_map.mp hmem with ⟨p, hp, hpe⟩
  have hpB := List.mem_of_mem_filter hp
  have hval : p.2 = c := by simpa using List.of_mem_filter hp
  exact h p hpB hpe hval

theorem registerAccept_noSubs (w : World)
    (rec : RegState → Nat → Option Bool → RegState × List String)
    (s : RegState) (c : Nat) (lbls : Option (List String)) (name : String)
    (isDup : Bool) (wd : Bool) (h : subComponents w c = []) :
    registerAccept w rec s c lbls name isDup wd =
      (⟨if name ≠ "" then insertName (removeOldKeys s.byName c) name c
          else removeOldKeys s.byName c,
        (regLabels w c lbls).foldl (fun m lb => addLabel m lb c) s.byLabel⟩,
       if isDup && wd then [name] else []) := by
  unfold registerAccept
  rw [h]
  rfl

/-! ### Claim C1: duplicate-name registration -/

/-- Concrete world for C1: two distinct childless components `0` and `1`, both
named `n`; `0` carries label `L`, `1` carries none; neither is a readback
alias of the other. -/
def wC1 : World :=
  ⟨fun d => if d = 0 ∨ d = 1 then some "n" else none,
   fun d => if d = 0 then ["L"] else [],
   fun _ => false,
   fun _ => [],
   fun _ => false,
   fun _ => [],
   fun _ _ => none,
   fun _ => none,
   fun _ => none⟩

/-- C1 counterexample: registering `0` and then the distinct, non-readback
component `1` under the same name `n` does not keep `0` in the name index:
the state after the two calls maps `n` to `1`, and a name lookup through
`find` returns `1`, not `0` — the spec's claim that the second component is
rejected and `c1` stays discoverable is false on the code. -/
theorem register_duplicate_keeps_new_example :
    (register wC1 true 1 (register wC1 true 1 emptyState 0 none none).1
        1 none none).1 = RegState.mk [("n", 1)] [("L", [0])] ∧
      findQ wC1 (RegState.mk [("n", 1)] [("L", [0])]) 2 none none
        (some (Query.str "n")) false = Except.ok (some 1) := by
  constructor
  · decide
  · decide

/-- C1 (amended): registering a second, distinct component `c2` that is not a
readback alias of the incumbent `c1` with the same non-empty name records a
duplicate warning, but the new component replaces the incumbent in the name
index: the name afterwards resolves to `c2`, not `c1` (stated for childless
components so that no sub-component interferes with the shared name). -/
theorem register_duplicate_overwrites (w : World) (f1 f2 : Nat) (s : RegState)
    (c1 c2 : Nat) (n : String)
    (h1 : w.nameAttr c1 = some n) (h2 : w.nameAttr c2 = some n) (hne : n ≠ "")
    (hc : c1 ≠ c2) (hrb : isReadback w c1 c2 = false)
    (hs : lookupName s.byName n = none)
    (hsub1 : subComponents w c1 = []) (hsub2 : subComponents w c2 = []) :
    lookupName (register w true (f1 + 1) s c1 none none).1.byName n = some c1 ∧
      lookupName (register w true (f2 + 1)
        (register w true (f1 + 1) s c1 none none).1 c2 none none).1.byName n =
        some c2 ∧
      (register w true (f2 + 1) (register w true (f1 + 1) s c1 none none).1
        c2 none none).2 = [n] := by
  have hnokey : ∀ p ∈ s.byName, p.1 ≠ n := (lookupName_eq_none_iff _ _).mp hs
  rw [register_fresh w true f1 s c1 n none none h1 hs]
  simp only [Option.getD_none]
  rw [registerAccept_noSubs w _ s c1 none n false true hsub1]
  simp only [if_neg (not_not.mpr rfl), if_pos hne]
  set bn1 := removeOldKeys s.byName c1 with hbn1
  have hbn1none : lookupName bn1 n = none := by
    rw [hbn1, removeOldKeys_lookup (fun p hp hpn _ => hnokey p hp hpn)]
    exact hs
  have hstep1 : lookupName (insertName bn1 n c1) n = some c1 :=
    insertName_lookup_self bn1 n c1
  refine ⟨hstep1, ?_⟩
  have hmem1 : ∀ p ∈ insertName bn1 n c1, p.1 = n → p.2 = c1 := by
    intro p hp hpn
    rcases mem_insertName hp with hpl | rfl
    · exact absurd hpn (fun he => (lookupName_eq_none_iff bn1 n).mp hbn1none p hpl he)
    · rfl
  rw [register_dup w true f2 _ c2 c1 n none none h2 hstep1 hrb hc]
  simp only [Option.getD_none]
  rw [registerAccept_noSubs w _ _ c2 none n true true hsub2]
  simp only [if_pos hne]
  constructor
  · apply insertName_lookup_self
  · rfl

/-- C1 witness: the amended overwrite theorem applied at the concrete
two-component world. -/
theorem register_duplicate_overwrites_witness :
    wC1.nameAttr 0 = some "n" ∧ wC1.nameAttr 1 = some "n" ∧ (0 : Nat) ≠ 1 ∧
      isReadback wC1 0 1 = false ∧
      lookupName (register wC1 true 1 emptyState 0 none none).1.byName "n" =
        some 0 ∧
      lookupName (register wC1 true 1
        (register wC1 true 1 emptyState 0 none none).1 1 none none).1.byName "n" =
        some 1 ∧
      (register wC1 true 1
        (register wC1 true 1 emptyState 0 none none).1 1 none none).2 = ["n"] := by
  have h := register_duplicate_overwrites wC1 0 0 emptyState 0 1 "n"
    (by decide) (by decide) (by decide) (by decide) (by decide) (by decide)
    (by decide) (by decide)
  exact ⟨by decide, by decide, by decide, by decide, h.1, h.2.1, h.2.2⟩

/-! ### Resolver evaluation lemmas -/

theorem traverse_nil (w : World) (d : Nat) : traverse w d [] = .ok d := rfl

theorem foldlM_traverse_nil (w : World) (ds acc : List Nat) :
    (ds.foldlM (fun acc d => do
      let r ← traverse w d []
      pure (acc ++ [r])) acc : Except RegError (List Nat)) = .ok (acc ++ ds) := by
  induction ds generalizing acc with
  | nil =>
    simp only [List.foldlM_nil, List.append_nil]
    rfl
  | cons d t ih =>
    rw [List.foldlM_cons]
    exact (ih (acc ++ [d])).trans (by simp)

/-- Definitional equation of the label sub-resolver on a string query. -/
theorem findByLabelF_str (w : World) (s : RegState)
    (reF : Option Query → Option Query → Option Query → Bool →
      Except RegError (List Nat)) (L : String) (aN : Bool) :
    findByLabelF w s reF (Query.str L) aN =
      match pySplitDot L with
      | [] => Except.ok []
      | l :: attrs =>
        match lookupLabel s.byLabel l with
        | none => Except.ok []
        | some ds =>
          ds.foldlM (fun acc d => do
            let r ← traverse w d attrs
            pure (acc ++ [r])) [] := rfl

/-- Evaluation of the label sub-resolver on a plain (dot-free) label string
whose set exists: every member is yielded unchanged. -/
theorem findByLabelF_str_plain (w : World) (s : RegState)
    (reF : Option Query → Option Query → Option Query → Bool →
      Except RegError (List Nat))
    (L : String) (ds : List Nat) (aN : Bool)
    (hsplit : pySplitDot L = [L]) (hds : lookupLabel s.byLabel L = some ds) :
    findByLabelF w s reF (Query.str L) aN = .ok ds := by
  rw [findByLabelF_str, hsplit]
  simp only [hds]
  exact (foldlM_traverse_nil w ds []).trans (by simp)

/-- The label-only `findall` call in terms of the label sub-resolver. -/
theorem findallQ_labelOnly (w : World) (s : RegState) (f : Nat) (q : Query)
    (aN : Bool) :
    findallQ w s (f + 1) none (some q) none aN =
      finishFindall aN
        ((findByLabelF w s (fun a l n b => findallQ w s f a l n b) q aN).bind
          (fun rl => .ok (rl ++ []))) := by
  rw [findallQ]
  · rfl
  · intro qs h
    cases h

/-- The name-only `findall` call in terms of the name sub-resolver. -/
theorem findallQ_nameOnly (w : World) (s : RegState) (f : Nat) (q : Query)
    (aN : Bool) :
    findallQ w s (f + 1) none none (some q) aN =
      finishFindall aN
        ((findByNameF w s (fun a l n b => findallQ w s f a l n b) q).bind
          (fun rn => .ok ([] ++ rn))) := by
  rw [findallQ]
  · rfl
  · intro qs h
    cases h

theorem finishFindall_ok (aN : Bool) (ds : List Nat) :
    finishFindall aN (.ok ds) =
      if ds.length = 0 ∧ aN = false then .error .notFound
      else .ok (remove_duplicates ds) := rfl

theorem finishFindall_ok_ne_nil (aN : Bool) (ds : List Nat) (h : ds ≠ []) :
    finishFindall aN (.ok ds) = .ok (remove_duplicates ds) := by
  rw [finishFindall_ok, if_neg]
  rintro ⟨hlen, -⟩
  exact h (List.length_eq_zero.mp hlen)

theorem finishFindall_error (aN : Bool) (e : RegError) :
    finishFindall aN (.error e) = .error e := rfl

theorem findPost_ok (rs : List Nat) :
    findPost (.ok rs) =
      if rs.length = 1 then .ok rs.head?
      else if 1 < rs.length then .error .multipleFound else .ok none := rfl

theorem findPost_error (e : RegError) : findPost (.error e) = .error e := rfl

/-! ### Claim C2: no ancestor filtering in find -/

/-- Concrete world for C2: parent `0` (named `p`, label `L`) with `_signals`
child `1` (named `c`, also label `L`, parent `0`). -/
def wC2 : World :=
  ⟨fun d => if d = 0 then some "p" else if d = 1 then some "c" else none,
   fun d => if d = 0 ∨ d = 1 then ["L"] else [],
   fun d => d == 0,
   fun d => if d = 0 then [1] else [],
   fun _ => false,
   fun _ => [],
   fun _ _ => none,
   fun d => if d = 1 then some 0 else none,
   fun _ => none⟩

/-- C2 counterexample: with parent `0` and its sub-component `1` both carrying
label `L`, `find(label="L")` does not return the child: it raises
`MultipleComponentsFound`.  No ancestor is removed from the candidate set
anywhere in `find`. -/
theorem find_no_ancestor_filter_example :
    (register wC2 true 2 emptyState 0 none none).1 =
      RegState.mk [("p", 0), ("c", 1)] [("L", [0, 1])] ∧
      findQ wC2 (RegState.mk [("p", 0), ("c", 1)] [("L", [0, 1])]) 2 none
        (some (Query.str "L")) none false = Except.error RegError.multipleFound := by
  constructor
  · decide
  · decide

/-- C2 (amended): `find` applies no ancestor filtering at all: whenever two
distinct components — in particular a parent and one of its sub-components —
are members of the queried label set, `find(label=...)` fails with
`MultipleComponentsFound` instead of returning the sub-component. -/
theorem find_two_label_members_multiple_error (w : World) (s : RegState)
    (f : Nat) (L : String) (p c : Nat) (aN : Bool)
    (hsplit : pySplitDot L = [L])
    (hp : p ∈ labelSetL s.byLabel L) (hc : c ∈ labelSetL s.byLabel L)
    (hpc : p ≠ c) :
    findQ w s (f + 1) none (some (Query.str L)) none aN =
      .error .multipleFound := by
  rcases hds : lookupLabel s.byLabel L with _ | ds
  · unfold labelSetL at hp
    rw [hds] at hp
    simp at hp
  · unfold labelSetL at hp hc
    rw [hds] at hp hc
    simp only [Option.getD_some] at hp hc
    have hne : ds ≠ [] := List.ne_nil_of_mem hp
    unfold findQ
    rw [findallQ_labelOnly,
      findByLabelF_str_plain w s _ L ds aN hsplit hds]
    have hbind : ((Except.ok ds : Except RegError (List Nat)).bind
        (fun rl => .ok (rl ++ []))) = .ok ds := by simp [Except.bind]
    rw [hbind, finishFindall_ok_ne_nil aN ds hne]
    have hlen : 2 ≤ (remove_duplicates ds).length :=
      two_le_length_of_mem_ne ((mem_remove_duplicates ds p).mpr hp)
        ((mem_remove_duplicates ds c).mpr hc) hpc
    rw [findPost_ok, if_neg (by omega), if_pos (by omega)]

/-- C2 witness: the amended multiplicity theorem applied at the concrete
parent/child world. -/
theorem find_two_label_members_multiple_error_witness :
    pySplitDot "L" = ["L"] ∧
      0 ∈ labelSetL (RegState.mk [("p", 0), ("c", 1)] [("L", [0, 1])]).byLabel "L" ∧
      1 ∈ labelSetL (RegState.mk [("p", 0), ("c", 1)] [("L", [0, 1])]).byLabel "L" ∧
      findQ wC2 (RegState.mk [("p", 0), ("c", 1)] [("L", [0, 1])]) 3 none
        (some (Query.str "L")) none false = .error .multipleFound :=
  ⟨by decide, by decide, by decide,
    find_two_label_members_multiple_error wC2
      (RegState.mk [("p", 0), ("c", 1)] [("L", [0, 1])]) 2 "L" 0 1 false
      (by decide) (by decide) (by decide) (by decide)⟩

/-! ### Claim C4: dotted-path traversal failures -/

/-- Definitional equation of the name sub-resolver on a string query. -/
theorem findByNameF_str (w : World) (s : RegState)
    (reF : Option Query → Option Query → Option Query → Bool →
      Except RegError (List Nat)) (nm : String) :
    findByNameF w s reF (Query.str nm) =
      if pyTail13 nm = "user_readback" then
        match findPost (reF none none
            (some (Query.str (stripUnderscores (pyDropLast14 nm)))) false) with
        | .error e => .error e
        | .ok none => .error (.attributeError "user_readback")
        | .ok (some p) =>
          match w.attr p "user_readback" with
          | some r => .ok [r]
          | none => .error (.attributeError "user_readback")
      else
        match pySplitDot nm with
        | [] => .ok []
        | n :: attrs =>
          match lookupName s.byName n with
          | none => .ok []
          | some d =>
            match traverse w d attrs with
            | .ok r => .ok [r]
            | .error e => .error e := rfl

theorem findByNameF_str_attr_error (w : World) (s : RegState)
    (reF : Option Query → Option Query → Option Query → Bool →
      Except RegError (List Nat))
    (nm n : String) (attrs : List String) (d : Nat) (e : RegError)
    (hur : pyTail13 nm ≠ "user_readback") (hsplit : pySplitDot nm = n :: attrs)
    (hlook : lookupName s.byName n = some d) (htrav : traverse w d attrs = .error e) :
    findByNameF w s reF (Query.str nm) = .error e := by
  rw [findByNameF_str, if_neg hur, hsplit]
  simp only [hlook, htrav]

theorem findByLabelF_str_attr_error (w : World) (s : RegState)
    (reF : Option Query → Option Query → Option Query → Bool →
      Except RegError (List Nat))
    (lq l : String) (attrs : List String) (d : Nat) (e : RegError) (aN : Bool)
    (hsplit : pySplitDot lq = l :: attrs)
    (hlook : lookupLabel s.byLabel l = some [d])
    (htrav : traverse w d attrs = .error e) :
    findByLabelF w s reF (Query.str lq) aN = .error e := by
  rw [findByLabelF_str, hsplit]
  simp only [hlook, List.foldlM_cons, htrav]
  rfl

/-- Concrete world for C4: a single registered component `0` named `I0`
without any further attributes. -/
def wC4 : World :=
  ⟨fun d => if d = 0 then some "I0" else none,
   fun _ => [],
   fun _ => false,
   fun _ => [],
   fun _ => false,
   fun _ => [],
   fun _ _ => none,
   fun _ => none,
   fun _ => none⟩

/-- C4 counterexample: the dotted name query `I0.gain` matches component `0`
by the prefix `I0`, but `0` has no `gain` attribute.  The candidate is not
silently dropped: even with `allow_none = True` the whole `findall` call
raises the `AttributeError` (the embedding returns it as an error instead of
the empty result the claim requires). -/
theorem findall_traversal_error_example :
    findallQ wC4 (RegState.mk [("I0", 0)] []) 2 none none
        (some (Query.str "I0.gain")) true =
      Except.error (RegError.attributeError "gain") ∧
      findallQ wC4 (RegState.mk [("I0", 0)] []) 2 none none
        (some (Query.str "I0.gain")) true ≠ Except.ok [] := by
  constructor
  · decide
  · decide

/-- C4 (amended): in a dotted-path query the prefix lookup is tolerant (a
missing index key yields nothing), but a candidate matched by the prefix that
lacks one of the remaining path segments is not silently dropped: the
`AttributeError` raised by the traversal propagates out of `findall` to the
caller (for a name query, and likewise for a label query whose set holds the
failing candidate), regardless of `allow_none`. -/
theorem findall_traversal_error_propagates (w : World) (s : RegState) (f : Nat)
    (nm n lq l : String) (attrs lattrs : List String) (d dl : Nat)
    (e el : RegError) (aN : Bool)
    (hur : pyTail13 nm ≠ "user_readback") (hsplit : pySplitDot nm = n :: attrs)
    (hlook : lookupName s.byName n = some d)
    (htrav : traverse w d attrs = .error e)
    (hlsplit : pySplitDot lq = l :: lattrs)
    (hllook : lookupLabel s.byLabel l = some [dl])
    (hltrav : traverse w dl lattrs = .error el) :
    findallQ w s (f + 1) none none (some (Query.str nm)) aN = .error e ∧
      findallQ w s (f + 1) none (some (Query.str lq)) none aN = .error el := by
  constructor
  · rw [findallQ_nameOnly,
      findByNameF_str_attr_error w s _ nm n attrs d e hur hsplit hlook htrav]
    rfl
  · rw [findallQ_labelOnly,
      findByLabelF_str_attr_error w s _ lq l lattrs dl el aN hlsplit hllook hltrav]
    rfl

/-- C4 witness: the propagation theorem applied at the concrete world (name
query `I0.gain`, label query `L.gain` with the same failing candidate). -/
theorem findall_traversal_error_propagates_witness :
    pySplitDot "I0.gain" = ["I0", "gain"] ∧
      lookupName [("I0", 0)] "I0" = some 0 ∧
      traverse wC4 0 ["gain"] = .error (.attributeError "gain") ∧
      findallQ wC4 (RegState.mk [("I0", 0)] [("L", [0])]) 3 none none
        (some (Query.str "I0.gain")) true =
        .error (.attributeError "gain") ∧
      findallQ wC4 (RegState.mk [("I0", 0)] [("L", [0])]) 3 none
        (some (Query.str "L.gain")) none true =
        .error (.attributeError "gain") := by
  have h := findall_traversal_error_propagates wC4
    (RegState.mk [("I0", 0)] [("L", [0])]) 2 "I0.gain" "I0" "L.gain" "L"
    ["gain"] ["gain"] 0 0 (.attributeError "gain") (.attributeError "gain") true
    (by decide) (by decide) (by decide) (by decide) (by decide) (by decide)
    (by decide)
  exact ⟨by decide, by decide, by decide, h.1, h.2⟩

/-! ### Claim C6: zero, one and many candidates in find -/

theorem finishFindall_false_ne_nil (G : Except RegError (List Nat)) :
    finishFindall false G ≠ .ok [] := by
  rcases G with e | ds
  · simp [finishFindall]
  · rw [finishFindall_ok]
    by_cases h : ds.length = 0
    · simp [h]
    · rw [if_neg (by simp [h])]
      intro hc
      injection hc with hc2
      exact remove_duplicates_ne_nil (fun hh => h (by simp [hh])) hc2

/-- C6 counterexample: on a query with an empty candidate set and
`allow_none = False`, `find` does not return the sentinel `None`: the
`ComponentNotFound` raised inside `findall` propagates. -/
theorem find_empty_raises_example :
    findQ wC4 emptyState 2 none none (some (Query.str "nope")) false =
        Except.error RegError.notFound ∧
      findQ wC4 emptyState 2 none none (some (Query.str "nope")) false ≠
        Except.ok none := by
  constructor
  · decide
  · decide

/-- C6 (amended): with `allow_none = False` an empty candidate set never
reaches `find`'s zero branch — `findall` raises `ComponentNotFound` first and
`find` re-raises it — so `find` returns the sentinel `None` only under
`allow_none = True`; with more than one remaining candidate it fails with
`MultipleComponentsFound`; with exactly the empty deduplicated result under
`allow_none = True` it returns `None`. -/
theorem find_zero_one_many (w : World) (s : RegState) (f : Nat)
    (a l n : Option Query) (aN : Bool) :
    (findallQ w s f a l n false ≠ .ok []) ∧
      (findallQ w s f a l n aN = .ok [] → findQ w s f a l n aN = .ok none) ∧
      (∀ rs, findallQ w s f a l n aN = .ok rs → 2 ≤ rs.length →
        findQ w s f a l n aN = .error .multipleFound) ∧
      (∀ e, findallQ w s f a l n aN = .error e →
        findQ w s f a l n aN = .error e) := by
  refine ⟨?_, ?_, ?_, ?_⟩
  · cases f with
    | zero =>
      intro hc
      cases hc
    | succ f => exact finishFindall_false_ne_nil _
  · intro h
    unfold findQ
    rw [h, findPost_ok]
    simp
  · intro rs h hlen
    unfold findQ
    rw [h, findPost_ok, if_neg (by omega), if_pos (by omega)]
  · intro e h
    unfold findQ
    rw [h, findPost_error]

/-- C6 witness: the zero/one/many theorem applied at a concrete empty query
(`allow_none = True` yields the `None` sentinel through the zero branch). -/
theorem find_zero_one_many_witness :
    findallQ wC4 emptyState 2 none none (some (Query.str "nope")) true =
        Except.ok [] ∧
      findQ wC4 emptyState 2 none none (some (Query.str "nope")) true =
        Except.ok none :=
  ⟨by decide,
    (find_zero_one_many wC4 emptyState 2 none none
      (some (Query.str "nope")) true).2.1 (by decide)⟩

/-! ### Generic preservation of state predicates through register -/

/-- A state predicate that holds after the index update and is preserved by
every recursive registration also holds after the accepted-registration tail. -/
theorem registerAccept_preserve (w : World) (cfg : Bool) (f : Nat)
    (s : RegState) (c : Nat) (lbls : Option (List String)) (name : String)
    (isDup wd : Bool) (P : RegState → Prop)
    (hstep : ∀ s2 c2 wdc, P s2 → P (register w cfg f s2 c2 none wdc).1)
    (hstart : P ⟨(if name ≠ "" then insertName (removeOldKeys s.byName c) name c
        else removeOldKeys s.byName c),
      (regLabels w c lbls).foldl (fun m lb => addLabel m lb c) s.byLabel⟩) :
    P (registerAccept w (fun s2 d wdc => register w cfg f s2 d none wdc)
        s c lbls name isDup wd).1 := by
  suffices h : ∀ (ds : List Nat) (acc : RegState × List String), P acc.1 →
      P ((ds.foldl (fun acc d =>
        let r := register w cfg f acc.1 d none (some ((!isDup) && wd))
        (r.1, acc.2 ++ r.2)) acc).1) by
    exact h (subComponents w c) _ hstart
  intro ds
  induction ds with
  | nil => exact fun acc h => h
  | cons d t ih =>
    intro acc h
    rw [List.foldl_cons]
    exact ih _ (hstep acc.1 d _ h)

/-- A state predicate preserved by the index update of an accepted
registration (whose name either is fresh or belongs to a distinct,
non-readback incumbent) is preserved by `register` at every fuel. -/
theorem register_preserves (w : World) (cfg : Bool) (P : RegState → Prop)
    (hP : ∀ s c lbls name, w.nameAttr c = some name →
      (lookupName s.byName name = none ∨
        ∃ old, lookupName s.byName name = some old ∧
          isReadback w old c = false ∧ old ≠ c) →
      P s →
      P ⟨(if name ≠ "" then insertName (removeOldKeys s.byName c) name c
          else removeOldKeys s.byName c),
        (regLabels w c lbls).foldl (fun m lb => addLabel m lb c) s.byLabel⟩) :
    ∀ f s c lbls wd, P s → P (register w cfg f s c lbls wd).1 := by
  intro f
  induction f with
  | zero => exact fun s c lbls wd h => h
  | succ f ih =>
    intro s c lbls wd h
    rcases hn : w.nameAttr c with _ | name
    · rw [register_noName w cfg f s c lbls wd hn]
      exact h
    · rcases hl : lookupName s.byName name with _ | old
      · rw [register_fresh w cfg f s c name lbls wd hn hl]
        exact registerAccept_preserve w cfg f s c lbls name false _ P
          (fun s2 c2 wdc h2 => ih s2 c2 none wdc h2)
          (hP s c lbls name hn (Or.inl hl) h)
      · rcases hrb : isReadback w old c with _ | _
        · by_cases heq : old = c
          · subst heq
            rw [register_same w cfg f s old name lbls wd hn hl hrb]
            exact h
          · rw [register_dup w cfg f s c old name lbls wd hn hl hrb heq]
            exact registerAccept_preserve w cfg f s c lbls name true _ P
              (fun s2 c2 wdc h2 => ih s2 c2 none wdc h2)
              (hP s c lbls name hn (Or.inr ⟨old, hl, hrb, heq⟩) h)
        · rw [register_readback w cfg f s c old name lbls wd hn hl hrb]
          exact h

/-- Once a component is a member of a label set it stays one through any
further registration (register only adds to label sets). -/
theorem register_label_member_persists (w : World) (cfg : Bool) (d : Nat)
    (lb : String) :
    ∀ f s c lbls wd, d ∈ labelSetL s.byLabel lb →
      d ∈ labelSetL (register w cfg f s c lbls wd).1.byLabel lb := by
  apply register_preserves w cfg (fun st => d ∈ labelSetL st.byLabel lb)
  intro s c lbls name _ _ h
  exact (mem_labelSetL_foldl_addLabel _ _ _ _ _).mpr (Or.inl h)

/-- The empty string never becomes a name-index key: the insertion is guarded
by `component.name != ""`. -/
theorem register_no_empty_key (w : World) (cfg : Bool) :
    ∀ f s c lbls wd, lookupName s.byName "" = none →
      lookupName (register w cfg f s c lbls wd).1.byName "" = none := by
  apply register_preserves w cfg (fun st => lookupName st.byName "" = none)
  intro s c lbls name _ _ h
  have hrm : lookupName (removeOldKeys s.byName c) "" = none := by
    rw [lookupName_eq_none_iff]
    exact fun p hp => (lookupName_eq_none_iff _ _).mp h p (mem_removeOldKeys hp)
  by_cases hname : name ≠ ""
  · rw [if_pos hname]
    rw [insertName_lookup_ne _ name "" c (fun he => hname he.symm)]
    exact hrm
  · rw [if_neg hname]
    exact hrm

/-! ### Claim C7: components with an empty or missing name -/

/-- Concrete world for C7: component `0` has the empty name and label `L` and
a `_signals` child `1` named `x`. -/
def wC7 : World :=
  ⟨fun d => if d = 0 then some "" else if d = 1 then some "x" else none,
   fun d => if d = 0 then ["L"] else [],
   fun d => d == 0,
   fun d => if d = 0 then [1] else [],
   fun _ => false,
   fun _ => [],
   fun _ _ => none,
   fun _ => none,
   fun _ => none⟩

/-- C7 counterexample: registering the empty-named component `0` is not a
no-op: its label `L` is added to the label index and its sub-component `1` is
registered under `x` — only the name-index entry for `0` itself is skipped. -/
theorem register_empty_name_not_noop_example :
    register wC7 true 2 emptyState 0 none none =
        (RegState.mk [("x", 1)] [("L", [0])], []) ∧
      (register wC7 true 2 emptyState 0 none none).1 ≠ emptyState := by
  constructor
  · decide
  · decide

/-- C7 (amended): a component whose `name` attribute is missing is skipped
entirely (`register` is a no-op returning the state unchanged with no
warning).  A component whose name is the empty string is skipped only for the
name index — the empty string never becomes a key — while its labels are still
added to the label index and its sub-components are still registered. -/
theorem register_unnamed_behavior (w : World) (cfg : Bool) (f : Nat)
    (s : RegState) (c : Nat) (lbls : Option (List String)) (wd : Option Bool) :
    (w.nameAttr c = none → register w cfg (f + 1) s c lbls wd = (s, [])) ∧
      (lookupName s.byName "" = none →
        lookupName (register w cfg f s c lbls wd).1.byName "" = none) ∧
      (∀ lb, w.nameAttr c = some "" → lookupName s.byName "" = none →
        lb ∈ regLabels w c lbls →
        c ∈ labelSetL (register w cfg (f + 1) s c lbls wd).1.byLabel lb) := by
  refine ⟨?_, ?_, ?_⟩
  · exact register_noName w cfg f s c lbls wd
  · exact register_no_empty_key w cfg f s c lbls wd
  · intro lb hn hkey hlb
    rw [register_fresh w cfg f s c "" lbls wd hn hkey]
    apply registerAccept_preserve w cfg f s c lbls "" false _
      (fun st => c ∈ labelSetL st.byLabel lb)
    · exact fun s2 c2 wdc h2 =>
        register_label_member_persists w cfg c lb f s2 c2 none wdc h2
    · exact (mem_labelSetL_foldl_addLabel _ _ _ _ _).mpr (Or.inr ⟨rfl, hlb⟩)

/-- C7 witness: the amended theorem applied at the concrete empty-named
component with a label and a child. -/
theorem register_unnamed_behavior_witness :
    wC7.nameAttr 0 = some "" ∧ "L" ∈ regLabels wC7 0 none ∧
      0 ∈ labelSetL (register wC7 true 2 emptyState 0 none none).1.byLabel "L" ∧
      wC7.nameAttr 2 = none ∧
      register wC7 true 2 emptyState 2 none none = (emptyState, []) := by
  have h := register_unnamed_behavior wC7 true 1 emptyState 0 none none
  have h2 := register_unnamed_behavior wC7 true 1 emptyState 2 none none
  exact ⟨by decide, by decide,
    h.2.2 "L" (by decide) (by decide) (by decide),
    by decide, h2.1 (by decide)⟩

/-! ### Claim C5: recursive removal in pop -/

/-- The sub-components reachable from `d` through the `_signals` mapping (the
only capability `Registry.pop` recurses on), to depth `f`, including `d`. -/
def sigReach (w : World) : Nat → Nat → List Nat
  | 0, _ => []
  | f + 1, d => d :: (popSubs w d).flatMap (fun d2 => sigReach w f d2)

/-- `popDevice` only removes name-index entries, never adds any. -/
theorem popDevice_byName_sub (w : World) :
    ∀ f s d p, p ∈ (popDevice w f s d).byName → p ∈ s.byName := by
  intro f
  induction f with
  | zero => exact fun s d p h => h
  | succ f ih =>
    intro s d p h
    rw [popDevice_succ] at h
    suffices haux : ∀ (ds : List Nat) (st : RegState),
        p ∈ ((ds.foldl (fun st d2 => popDevice w f st d2) st)).byName →
        p ∈ st.byName by
      have h2 := haux _ _ h
      rcases hn : w.nameAttr d with _ | n
      · rw [hn] at h2
        exact h2
      · rw [hn] at h2
        exact mem_eraseName h2
    intro ds
    induction ds with
    | nil => exact fun st h => h
    | cons d2 t iht =>
      intro st h
      rw [List.foldl_cons] at h
      exact ih _ _ _ (iht _ h)

theorem popFold_byName_sub (w : World) (f : Nat) :
    ∀ (ds : List Nat) (st : RegState) (p : String × Nat),
      p ∈ ((ds.foldl (fun st d2 => popDevice w f st d2) st)).byName →
      p ∈ st.byName := by
  intro ds
  induction ds with
  | nil => exact fun st p h => h
  | cons d2 t iht =>
    intro st p h
    rw [List.foldl_cons] at h
    exact popDevice_byName_sub w f _ _ _ (iht _ _ h)

theorem popDevice_lookup_none (w : World) (f : Nat) (s : RegState) (d : Nat)
    (n : String) (h : lookupName s.byName n = none) :
    lookupName (popDevice w f s d).byName n = none := by
  rw [lookupName_eq_none_iff] at h ⊢
  exact fun p hp => h p (popDevice_byName_sub w f s d p hp)

theorem popFold_lookup_none (w : World) (f : Nat) (ds : List Nat)
    (st : RegState) (n : String) (h : lookupName st.byName n = none) :
    lookupName ((ds.foldl (fun st d2 => popDevice w f st d2) st)).byName n =
      none := by
  rw [lookupName_eq_none_iff] at h ⊢
  exact fun p hp => h p (popFold_byName_sub w f ds st p hp)

/-- Popping a component removes the name-index entry of every sub-component
reachable through `_signals` (to the pop's recursion depth). -/
theorem popDevice_kills_reach (w : World) :
    ∀ f s d, ∀ d2 ∈ sigReach w f d, ∀ n, w.nameAttr d2 = some n →
      lookupName (popDevice w f s d).byName n = none := by
  intro f
  induction f with
  | zero =>
    intro s d d2 h2
    simp [sigReach] at h2
  | succ f ih =>
    intro s d d2 h2 n hn2
    rw [popDevice_succ]
    rcases List.mem_cons.mp h2 with rfl | hsub
    · -- the component itself: its key is erased before the recursion
      apply popFold_lookup_none
      rw [hn2]
      exact eraseName_lookup_self _ _
    · -- a descendant through some child in the `_signals` recursion
      rcases List.mem_flatMap.mp hsub with ⟨c2, hc2, hreach⟩
      suffices haux : ∀ (ds : List Nat) (st : RegState), c2 ∈ ds →
          lookupName ((ds.foldl (fun st d2 => popDevice w f st d2) st)).byName n =
            none by
        exact haux _ _ hc2
      intro ds
      induction ds with
      | nil =>
        intro st h
        simp at h
      | cons a t iht =>
        intro st h
        rw [List.foldl_cons]
        rcases List.mem_cons.mp h with rfl | ht
        · exact popFold_lookup_none w f t _ n (ih _ _ _ hreach n hn2)
        · exact iht _ ht

/-- C5 (amended): `pop` recursively removes exactly the sub-components
reachable through the named-signal mapping (`_signals`): after a successful
`pop`, no component in the `_signals`-reachable subtree is still a name-index
entry under its own name.  (Sub-components reachable only through the
`children()` capability are not covered — see the counterexample.) -/
theorem pop_removes_signal_subtree (w : World) (fuel : Nat) (s : RegState)
    (key : Query) (dflt : Option Nat) (c : Nat)
    (hfind : findQ w s fuel (some key) none none false = .ok (some c)) :
    popQ w fuel s key dflt = .ok (c, popDevice w fuel s c) ∧
      ∀ d2 ∈ sigReach w fuel c, ∀ n, w.nameAttr d2 = some n →
        lookupName (popDevice w fuel s c).byName n = none := by
  constructor
  · unfold popQ
    rw [hfind]
  · exact popDevice_kills_reach w fuel s c

/-- Concrete world for C5: parent `0` (named `p`) exposes its child `1`
(named `c`) only through the ophyd-async `children()` capability, not through
`_signals`. -/
def wC5 : World :=
  ⟨fun d => if d = 0 then some "p" else if d = 1 then some "c" else none,
   fun _ => [],
   fun _ => false,
   fun _ => [],
   fun d => d == 0,
   fun d => if d = 0 then [1] else [],
   fun _ _ => none,
   fun d => if d = 1 then some 0 else none,
   fun _ => none⟩

/-- C5 counterexample: `register` reaches child `1` through the
children-enumeration capability (`subComponents` of `0` is `[1]`), but `pop`
recurses only on `_signals`, so after popping the parent the child is still
findable by its own name — refuting the claim for children-capability
sub-components. -/
theorem pop_children_capability_example :
    subComponents wC5 0 = [1] ∧
      (register wC5 true 2 emptyState 0 none none).1 =
        RegState.mk [("p", 0), ("c", 1)] [] ∧
      popQ wC5 5 (RegState.mk [("p", 0), ("c", 1)] []) (Query.str "p") none =
        .ok (0, RegState.mk [("c", 1)] []) ∧
      findQ wC5 (RegState.mk [("c", 1)] []) 2 none none
        (some (Query.str "c")) false = .ok (some 1) := by
  refine ⟨by decide, by decide, by decide, by decide⟩

/-- C5 witness: the subtree-removal theorem applied at the `_signals` world of
C2 (parent `0` with `_signals` child `1`): popping `p` leaves neither `p` nor
`c` in the name index. -/
theorem pop_removes_signal_subtree_witness :
    findQ wC2 (RegState.mk [("p", 0), ("c", 1)] [("L", [0, 1])]) 3
        (some (Query.str "p")) none none false = .ok (some 0) ∧
      (1 : Nat) ∈ sigReach wC2 3 0 ∧
      lookupName (popDevice wC2 3
        (RegState.mk [("p", 0), ("c", 1)] [("L", [0, 1])]) 0).byName "c" =
        none :=
  ⟨by decide, by decide,
    (pop_removes_signal_subtree wC2 3
      (RegState.mk [("p", 0), ("c", 1)] [("L", [0, 1])]) (Query.str "p")
      none 0 (by decide)).2 1 (by decide) "c" (by decide)⟩

/-! ### Claim C9: pop_disconnected -/

/-- Did `d` report `connected == False` at every one of the `n` sampling
rounds starting at round `k`?  (A missing `connected` attribute reads as
connected.) -/
def allDisc (conn : Nat → Nat → Option Bool) : Nat → Nat → Nat → Bool
  | _, 0, _ => true
  | k, n + 1, d => (!((conn k d).getD true)) && allDisc conn (k + 1) n d

theorem not_getD_true_iff (o : Option Bool) :
    ((!(o.getD true)) = true) ↔ o = some false := by
  rcases o with _ | b
  · simp
  · rcases b with _ | _ <;> simp

theorem pollLoop_eq_filter (conn : Nat → Nat → Option Bool) :
    ∀ n k rem, pollLoop conn k (n + 1) rem =
      rem.filter (fun d => allDisc conn k (n + 1) d) := by
  intro n
  induction n with
  | zero =>
    intro k rem
    have hpt : ∀ d ∈ rem, (!((conn k d).getD true)) = allDisc conn k 1 d := by
      intro d _
      simp [allDisc]
    rw [pollLoop]
    by_cases he : (rem.filter (fun d => !((conn k d).getD true))).isEmpty
    · rw [if_pos he]
      rw [List.filter_congr hpt]
    · rw [if_neg he, if_pos rfl]
      rw [List.filter_congr hpt]
  | succ n ih =>
    intro k rem
    have hsplit : rem.filter (fun d => allDisc conn k (n + 2) d) =
        (rem.filter (fun d => !((conn k d).getD true))).filter
          (fun d => allDisc conn (k + 1) (n + 1) d) := by
      rw [List.filter_filter]
      apply List.filter_congr
      intro d _
      exact Bool.and_comm _ _
    rw [pollLoop]
    by_cases he : (rem.filter (fun d => !((conn k d).getD true))).isEmpty
    · rw [if_pos he]
      rw [hsplit, List.isEmpty_iff.mp he]
      simp
    · rw [if_neg he, if_neg (Nat.succ_ne_zero n), ih (k + 1), hsplit]

theorem allDisc_iff (conn : Nat → Nat → Option Bool) :
    ∀ n k d, (allDisc conn k n d = true ↔
      ∀ j, j < n → conn (k + j) d = some false) := by
  intro n
  induction n with
  | zero =>
    intro k d
    simp [allDisc]
  | succ n ih =>
    intro k d
    rw [allDisc, Bool.and_eq_true, not_getD_true_iff, ih (k + 1) d]
    constructor
    · rintro ⟨h0, hrest⟩ j hj
      rcases j with _ | j
      · rw [Nat.add_zero]
        exact h0
      · have hx : k + (j + 1) = (k + 1) + j := by omega
        rw [hx]
        exact hrest j (by omega)
    · intro h
      refine ⟨?_, ?_⟩
      · have := h 0 (Nat.succ_pos n)
        rwa [Nat.add_zero] at this
      · intro j hj
        have hx : (k + 1) + j = k + (j + 1) := by omega
        rw [hx]
        exact h (j + 1) (by omega)

theorem allDisc_zero_iff (conn : Nat → Nat → Option Bool) (n : Nat) (d : Nat) :
    allDisc conn 0 n d = true ↔ ∀ j, j < n → conn j d = some false := by
  rw [allDisc_iff conn n 0 d]
  constructor
  · intro h j hj
    have := h j hj
    rwa [Nat.zero_add] at this
  · intro h j hj
    rw [Nat.zero_add]
    exact h j hj

/-- C9: `pop_disconnected` removes exactly the root components that reported
`connected == False` at every sampling round of the poll (so in particular at
the round on which the poll ended); a component whose `connected` attribute is
missing is treated as connected and is never removed; and if every candidate
reports connected at the first sampling, the loop stops at once and nothing is
removed (the state is returned unchanged).  `n + 1` is the number of sampling
rounds the timeout budget allowed (always at least one). -/
theorem pop_disconnected_spec (w : World) (conn : Nat → Nat → Option Bool)
    (n fuel : Nat) (s : RegState) :
    (∀ d, d ∈ (pop_disconnected w conn (n + 1) fuel s).1 ↔
        d ∈ rootDevices w s ∧ ∀ j, j < n + 1 → conn j d = some false) ∧
      (∀ d, (∀ j, conn j d = none) →
        d ∉ (pop_disconnected w conn (n + 1) fuel s).1) ∧
      ((∀ d ∈ rootDevices w s, (conn 0 d).getD true = true) →
        pop_disconnected w conn (n + 1) fuel s = ([], s)) := by
  have hrem : (pop_disconnected w conn (n + 1) fuel s).1 =
      (rootDevices w s).filter (fun d => allDisc conn 0 (n + 1) d) := by
    unfold pop_disconnected
    exact pollLoop_eq_filter conn n 0 (rootDevices w s)
  have hmem : ∀ d, d ∈ (pop_disconnected w conn (n + 1) fuel s).1 ↔
      d ∈ rootDevices w s ∧ ∀ j, j < n + 1 → conn j d = some false := by
    intro d
    rw [hrem, List.mem_filter, allDisc_zero_iff]
  refine ⟨hmem, ?_, ?_⟩
  · intro d hnone hd
    have h0 := ((hmem d).mp hd).2 0 (Nat.succ_pos n)
    rw [hnone 0] at h0
    cases h0
  · intro hall
    have hfil : (rootDevices w s).filter (fun d => allDisc conn 0 (n + 1) d) =
        [] := by
      rw [List.filter_eq_nil_iff]
      intro d hd
      simp [allDisc, hall d hd]
    unfold pop_disconnected
    rw [pollLoop_eq_filter conn n 0 (rootDevices w s), hfil]
    rfl

/-- Concrete world for C9: two parentless components, `0` named `good` always
reporting connected, `1` named `bad` always reporting disconnected. -/
def wC9 : World :=
  ⟨fun d => if d = 0 then some "good" else if d = 1 then some "bad" else none,
   fun _ => [],
   fun _ => false,
   fun _ => [],
   fun _ => false,
   fun _ => [],
   fun _ _ => none,
   fun _ => none,
   fun d => if d = 0 then some true else if d = 1 then some false else none⟩

/-- The connectivity trace of the C9 witness: round-independent, matching the
`connected` attribute of `wC9`. -/
def connC9 : Nat → Nat → Option Bool := fun _ d => wC9.connected d

/-- C9 witness: the poller theorem applied at the two-component world — the
disconnected root `1` is removed, and the result is exactly `[1]` with its
name-index entry gone. -/
theorem pop_disconnected_spec_witness :
    (1 : Nat) ∈ (pop_disconnected wC9 connC9 1 2
        (RegState.mk [("good", 0), ("bad", 1)] [])).1 ∧
      (0 : Nat) ∉ (pop_disconnected wC9 connC9 1 2
        (RegState.mk [("good", 0), ("bad", 1)] [])).1 ∧
      pop_disconnected wC9 connC9 1 2 (RegState.mk [("good", 0), ("bad", 1)] []) =
        ([1], RegState.mk [("good", 0)] []) := by
  have h := pop_disconnected_spec wC9 connC9 0 2
    (RegState.mk [("good", 0), ("bad", 1)] [])
  refine ⟨?_, ?_, by decide⟩
  · refine (h.1 1).mpr ⟨by decide, ?_⟩
    intro j hj
    have hj0 : j = 0 := Nat.lt_one_iff.mp hj
    subst hj0
    decide
  · intro hc
    have := ((h.1 0).mp hc).2 0 Nat.one_pos
    cases this

/-! ### Claim C10: explicit labels apply only to the top-level component -/

/-- Two registry states that agree on the whole name index and on the label
membership of every component other than `c`. -/
def AgreeOff (c : Nat) (s1 s2 : RegState) : Prop :=
  s1.byName = s2.byName ∧
    ∀ lb d, d ≠ c →
      (d ∈ labelSetL s1.byLabel lb ↔ d ∈ labelSetL s2.byLabel lb)

theorem agreeOff_refl (c : Nat) (s : RegState) : AgreeOff c s s :=
  ⟨rfl, fun _ _ _ => Iff.rfl⟩

/-- Adding the same component to the same label sets on both sides preserves
the agreement. -/
theorem agreeOff_foldl_addLabel (c e : Nat) (ls : List String)
    (s1 s2 : RegState) (B : List (String × Nat)) (h : AgreeOff c s1 s2) :
    AgreeOff c ⟨B, ls.foldl (fun m lb => addLabel m lb e) s1.byLabel⟩
      ⟨B, ls.foldl (fun m lb => addLabel m lb e) s2.byLabel⟩ := by
  refine ⟨rfl, ?_⟩
  intro lb d hd
  rw [mem_labelSetL_foldl_addLabel, mem_labelSetL_foldl_addLabel, h.2 lb d hd]

/-- Adding `c` itself to two different collections of label sets changes no
membership of any `d ≠ c`. -/
theorem agreeOff_labels_top (c : Nat) (ls1 ls2 : List String)
    (bl : List (String × List Nat)) (B : List (String × Nat)) :
    AgreeOff c ⟨B, ls1.foldl (fun m lb => addLabel m lb c) bl⟩
      ⟨B, ls2.foldl (fun m lb => addLabel m lb c) bl⟩ := by
  refine ⟨rfl, ?_⟩
  intro lb d hd
  rw [mem_labelSetL_foldl_addLabel, mem_labelSetL_foldl_addLabel]
  constructor
  · rintro (h | ⟨rfl, -⟩)
    · exact Or.inl h
    · exact absurd rfl hd
  · rintro (h | ⟨rfl, -⟩)
    · exact Or.inl h
    · exact absurd rfl hd

/-- The sub-component recursion preserves the agreement and produces the same
warnings on both sides. -/
theorem registerFold_agreeOff (w : World) (cfg : Bool) (f : Nat) (c : Nat)
    (b : Bool)
    (ih : ∀ s1 s2 e lbls wd, AgreeOff c s1 s2 →
      AgreeOff c (register w cfg f s1 e lbls wd).1
          (register w cfg f s2 e lbls wd).1 ∧
        (register w cfg f s1 e lbls wd).2 = (register w cfg f s2 e lbls wd).2) :
    ∀ (ds : List Nat) (acc1 acc2 : RegState × List String),
      AgreeOff c acc1.1 acc2.1 → acc1.2 = acc2.2 →
      AgreeOff c ((ds.foldl (fun acc d =>
            let r := register w cfg f acc.1 d none (some b)
            (r.1, acc.2 ++ r.2)) acc1).1)
          ((ds.foldl (fun acc d =>
            let r := register w cfg f acc.1 d none (some b)
            (r.1, acc.2 ++ r.2)) acc2).1) ∧
        (ds.foldl (fun acc d =>
            let r := register w cfg f acc.1 d none (some b)
            (r.1, acc.2 ++ r.2)) acc1).2 =
          (ds.foldl (fun acc d =>
            let r := register w cfg f acc.1 d none (some b)
            (r.1, acc.2 ++ r.2)) acc2).2 := by
  intro ds
  induction ds with
  | nil => exact fun acc1 acc2 h1 h2 => ⟨h1, h2⟩
  | cons d t iht =>
    intro acc1 acc2 h1 h2
    rw [List.foldl_cons, List.foldl_cons]
    have hstep := ih acc1.1 acc2.1 d none (some b) h1
    exact iht _ _ hstep.1
      (by rw [h2]; exact congrArg (fun x => acc2.2 ++ x) hstep.2)

/-- The accepted-registration tail preserves the agreement when run with the
same arguments on two agreeing states. -/
theorem registerAccept_agreeOff (w : World) (cfg : Bool) (f : Nat) (c : Nat)
    (ih : ∀ s1 s2 e lbls wd, AgreeOff c s1 s2 →
      AgreeOff c (register w cfg f s1 e lbls wd).1
          (register w cfg f s2 e lbls wd).1 ∧
        (register w cfg f s1 e lbls wd).2 = (register w cfg f s2 e lbls wd).2)
    (s1 s2 : RegState) (e : Nat) (lbls : Option (List String)) (name : String)
    (isDup wd : Bool) (h : AgreeOff c s1 s2) :
    AgreeOff c
        (registerAccept w (fun a d wdc => register w cfg f a d none wdc)
          s1 e lbls name isDup wd).1
        (registerAccept w (fun a d wdc => register w cfg f a d none wdc)
          s2 e lbls name isDup wd).1 ∧
      (registerAccept w (fun a d wdc => register w cfg f a d none wdc)
          s1 e lbls name isDup wd).2 =
        (registerAccept w (fun a d wdc => register w cfg f a d none wdc)
          s2 e lbls name isDup wd).2 := by
  unfold registerAccept
  rw [h.1]
  exact registerFold_agreeOff w cfg f c ((!isDup) && wd) ih (subComponents w e)
    _ _ (agreeOff_foldl_addLabel c e (regLabels w e lbls) s1 s2 _ h) rfl

/-- Running `register` with the same arguments on two states that agree off
`c` preserves the agreement and yields the same warnings. -/
theorem register_agreeOff (w : World) (cfg : Bool) (c : Nat) :
    ∀ f s1 s2 e lbls wd, AgreeOff c s1 s2 →
      AgreeOff c (register w cfg f s1 e lbls wd).1
          (register w cfg f s2 e lbls wd).1 ∧
        (register w cfg f s1 e lbls wd).2 = (register w cfg f s2 e lbls wd).2 := by
  intro f
  induction f with
  | zero => exact fun s1 s2 e lbls wd h => ⟨h, rfl⟩
  | succ f ih =>
    intro s1 s2 e lbls wd h
    have hbn := h.1
    rcases hn : w.nameAttr e with _ | name
    · rw [register_noName w cfg f s1 e lbls wd hn,
        register_noName w cfg f s2 e lbls wd hn]
      exact ⟨h, rfl⟩
    · rcases hl : lookupName s1.byName name with _ | old
      · have hl2 : lookupName s2.byName name = none := by
          rw [← hbn]
          exact hl
        rw [register_fresh w cfg f s1 e name lbls wd hn hl,
          register_fresh w cfg f s2 e name lbls wd hn hl2]
        exact registerAccept_agreeOff w cfg f c ih s1 s2 e lbls name false _ h
      · have hl2 : lookupName s2.byName name = some old := by
          rw [← hbn]
          exact hl
        rcases hrb : isReadback w old e with _ | _
        · by_cases heq : old = e
          · subst heq
            rw [register_same w cfg f s1 old name lbls wd hn hl hrb,
              register_same w cfg f s2 old name lbls wd hn hl2 hrb]
            exact ⟨h, rfl⟩
          · rw [register_dup w cfg f s1 e old name lbls wd hn hl hrb heq,
              register_dup w cfg f s2 e old name lbls wd hn hl2 hrb heq]
            exact registerAccept_agreeOff w cfg f c ih s1 s2 e lbls name true _ h
        · rw [register_readback w cfg f s1 e old name lbls wd hn hl hrb,
            register_readback w cfg f s2 e old name lbls wd hn hl2 hrb]
          exact ⟨h, rfl⟩

/-- C10: an explicit `labels` argument affects only the top-level component.
Registering `c` with `labels = some L` and with `labels = None` produces the
same name index, the same duplicate warnings, and the same label membership
for every component other than `c` — the recursion passes `labels = None`, so
every sub-component is labelled from its own `_ophyd_labels_` set, never from
the labels supplied to the call. -/
theorem register_labels_only_top_level (w : World) (cfg : Bool) (f : Nat)
    (s : RegState) (c : Nat) (L : List String) (wd : Option Bool) :
    (register w cfg f s c (some L) wd).1.byName =
        (register w cfg f s c none wd).1.byName ∧
      (register w cfg f s c (some L) wd).2 = (register w cfg f s c none wd).2 ∧
      ∀ lb d, d ≠ c →
        (d ∈ labelSetL (register w cfg f s c (some L) wd).1.byLabel lb ↔
          d ∈ labelSetL (register w cfg f s c none wd).1.byLabel lb) := by
  suffices h : AgreeOff c (register w cfg f s c (some L) wd).1
      (register w cfg f s c none wd).1 ∧
      (register w cfg f s c (some L) wd).2 = (register w cfg f s c none wd).2 by
    exact ⟨h.1.1, h.2, h.1.2⟩
  cases f with
  | zero => exact ⟨agreeOff_refl c s, rfl⟩
  | succ f =>
    rcases hn : w.nameAttr c with _ | name
    · rw [register_noName w cfg f s c (some L) wd hn,
        register_noName w cfg f s c none wd hn]
      exact ⟨agreeOff_refl c s, rfl⟩
    · rcases hl : lookupName s.byName name with _ | old
      · rw [register_fresh w cfg f s c name (some L) wd hn hl,
          register_fresh w cfg f s c name none wd hn hl]
        unfold registerAccept
        exact registerFold_agreeOff w cfg f c _
          (fun s1 s2 e lbls2 wd2 h2 => register_agreeOff w cfg c f s1 s2 e lbls2 wd2 h2)
          (subComponents w c) _ _
          (agreeOff_labels_top c (regLabels w c (some L)) (regLabels w c none)
            s.byLabel _) rfl
      · rcases hrb : isReadback w old c with _ | _
        · by_cases heq : old = c
          · subst heq
            rw [register_same w cfg f s old name (some L) wd hn hl hrb,
              register_same w cfg f s old name none wd hn hl hrb]
            exact ⟨agreeOff_refl old s, rfl⟩
          · rw [register_dup w cfg f s c old name (some L) wd hn hl hrb heq,
              register_dup w cfg f s c old name none wd hn hl hrb heq]
            unfold registerAccept
            exact registerFold_agreeOff w cfg f c _
              (fun s1 s2 e lbls2 wd2 h2 =>
                register_agreeOff w cfg c f s1 s2 e lbls2 wd2 h2)
              (subComponents w c) _ _
              (agreeOff_labels_top c (regLabels w c (some L)) (regLabels w c none)
                s.byLabel _) rfl
        · rw [register_readback w cfg f s c old name (some L) wd hn hl hrb,
            register_readback w cfg f s c old name none wd hn hl hrb]
          exact ⟨agreeOff_refl c s, rfl⟩

/-- C10 witness: the invariance theorem applied at the parent/child world —
supplying the extra label `X` to the parent changes neither the name index nor
the child's label membership. -/
theorem register_labels_only_top_level_witness :
    (register wC2 true 2 emptyState 0 (some ["X"]) none).1.byName =
        (register wC2 true 2 emptyState 0 none none).1.byName ∧
      ((1 : Nat) ∈ labelSetL
          (register wC2 true 2 emptyState 0 (some ["X"]) none).1.byLabel "L" ↔
        (1 : Nat) ∈ labelSetL
          (register wC2 true 2 emptyState 0 none none).1.byLabel "L") :=
  ⟨(register_labels_only_top_level wC2 true 2 emptyState 0 ["X"] none).1,
    (register_labels_only_top_level wC2 true 2 emptyState 0 ["X"] none).2.2
      "L" 1 (by decide)⟩

/-! ### Claim C3: label-set members are name-index values -/

/-- No two distinct components of the world share a non-empty name (the
duplicate-overwrite of C1 makes the unrestricted invariant false, so the
amended claim assumes injective naming). -/
def NamesInjective (w : World) : Prop :=
  ∀ d1 d2 n, w.nameAttr d1 = some n → w.nameAttr d2 = some n → n ≠ "" → d1 = d2

/-- Every name-index entry stores a component under its own, non-empty name. -/
def GoodNames (w : World) (s : RegState) : Prop :=
  ∀ p ∈ s.byName, w.nameAttr p.2 = some p.1 ∧ p.1 ≠ ""

/-- Every label-set member with a non-empty name is the name-index value under
its own name (the claim's invariant, with unnamed and empty-named components
ignored). -/
def LabelsIndexed (w : World) (s : RegState) : Prop :=
  ∀ lb d, d ∈ labelSetL s.byLabel lb → ∀ n, w.nameAttr d = some n → n ≠ "" →
    lookupName s.byName n = some d

def Inv (w : World) (s : RegState) : Prop := GoodNames w s ∧ LabelsIndexed w s

theorem inv_empty (w : World) : Inv w emptyState := by
  constructor
  · intro p hp
    cases hp
  · intro lb d hd
    simp [labelSetL, lookupLabel, emptyState] at hd

theorem removeOldKeys_id {B : List (String × Nat)} {c : Nat}
    (h : ∀ p ∈ B, p.2 ≠ c) : removeOldKeys B c = B := by
  unfold removeOldKeys
  have hfil : B.filter (fun p => p.2 == c) = [] := by
    rw [List.filter_eq_nil_iff]
    intro p hp
    simpa using h p hp
  rw [hfil]
  rfl

theorem find?_eq_none_of_lookup_none {l : List (String × Nat)} {k : String}
    (h : lookupName l k = none) : l.find? (fun p => p.1 == k) = none := by
  rcases hf : l.find? (fun p => p.1 == k) with _ | p
  · exact hf
  · unfold lookupName at h
    rw [hf] at h
    cases h

theorem insertName_append {l : List (String × Nat)} {k : String} {v : Nat}
    (h : lookupName l k = none) : insertName l k v = l ++ [(k, v)] := by
  unfold insertName
  rw [if_neg]
  rw [find?_eq_none_of_lookup_none h]
  simp

/-- The index update of an accepted registration preserves the invariant
(under injective naming the duplicate-with-distinct-incumbent case cannot
arise). -/
theorem inv_update (w : World) (hinj : NamesInjective w) (s : RegState)
    (c : Nat) (lbls : Option (List String)) (name : String)
    (hn : w.nameAttr c = some name)
    (hcase : lookupName s.byName name = none ∨
      ∃ old, lookupName s.byName name = some old ∧
        isReadback w old c = false ∧ old ≠ c)
    (h : Inv w s) :
    Inv w ⟨(if name ≠ "" then insertName (removeOldKeys s.byName c) name c
        else removeOldKeys s.byName c),
      (regLabels w c lbls).foldl (fun m lb => addLabel m lb c) s.byLabel⟩ := by
  rcases hcase with hfresh | ⟨old, hold, -, hne⟩
  swap
  · exfalso
    have hgn := h.1 _ (lookupName_mem hold)
    exact hne (hinj old c name hgn.1 hn hgn.2)
  have hremid : removeOldKeys s.byName c = s.byName := by
    apply removeOldKeys_id
    intro p hp hpc
    have hgn := h.1 p hp
    rw [hpc, hn] at hgn
    exact (lookupName_eq_none_iff _ _).mp hfresh p hp
      (Option.some.inj hgn.1).symm
  rw [hremid]
  by_cases hname : name ≠ ""
  · rw [if_pos hname, insertName_append hfresh]
    constructor
    · intro p hp
      rcases List.mem_append.mp hp with hp1 | hp1
      · exact h.1 p hp1
      · rw [List.mem_singleton.mp hp1]
        exact ⟨hn, hname⟩
    · intro lb d hd n hdn hne2
      rw [mem_labelSetL_foldl_addLabel] at hd
      rcases hd with hd | ⟨rfl, -⟩
      · exact lookupName_append_some (h.2 lb d hd n hdn hne2)
      · have hnn : n = name := by
          rw [hn] at hdn
          injection hdn with hx
          exact hx.symm
        subst hnn
        rw [lookupName_append_none hfresh, lookupName_cons]
        simp
  · rw [if_neg hname]
    constructor
    · exact h.1
    · intro lb d hd n hdn hne2
      rw [mem_labelSetL_foldl_addLabel] at hd
      rcases hd with hd | ⟨rfl, -⟩
      · exact h.2 lb d hd n hdn hne2
      · exfalso
        rw [hn] at hdn
        rw [not_not] at hname
        subst hname
        injection hdn with hx
        exact hne2 hx.symm

theorem register_preserves_inv (w : World) (cfg : Bool)
    (hinj : NamesInjective w) :
    ∀ f s c lbls wd, Inv w s → Inv w (register w cfg f s c lbls wd).1 :=
  register_preserves w cfg (Inv w)
    (fun s c lbls name hn hcase h => inv_update w hinj s c lbls name hn hcase h)

theorem popDevice_preserves_inv (w : World) (hinj : NamesInjective w) :
    ∀ f s d, Inv w s → Inv w (popDevice w f s d) := by
  intro f
  induction f with
  | zero => exact fun s d h => h
  | succ f ih =>
    intro s d h
    rw [popDevice_succ]
    have hs2 : Inv w ⟨(match w.nameAttr d with
        | none => s.byName
        | some n => eraseName s.byName n), discardAll s.byLabel d⟩ := by
      rcases hn : w.nameAttr d with _ | nd
      · refine ⟨h.1, ?_⟩
        intro lb d2 hd2 n hdn hne
        rw [mem_labelSetL_discardAll] at hd2
        exact h.2 lb d2 hd2.1 n hdn hne
      · constructor
        · intro p hp
          exact h.1 p (mem_eraseName hp)
        · intro lb d2 hd2 n hdn hne
          rw [mem_labelSetL_discardAll] at hd2
          have hlook := h.2 lb d2 hd2.1 n hdn hne
          by_cases hnn : n = nd
          · exfalso
            subst hnn
            exact hd2.2 (hinj d2 d n hdn hn hne)
          · rw [eraseName_lookup_ne _ nd n hnn]
            exact hlook
    suffices haux : ∀ (ds : List Nat) (st : RegState), Inv w st →
        Inv w (ds.foldl (fun st d2 => popDevice w f st d2) st) by
      exact haux _ _ hs2
    intro ds
    induction ds with
    | nil => exact fun st h2 => h2
    | cons a t iht =>
      intro st h2
      rw [List.foldl_cons]
      exact iht _ (ih _ _ h2)

/-- A successful `pop` leaves either the unchanged state (default returned) or
a `popDevice` result. -/
theorem popQ_state (w : World) (f : Nat) (s : RegState) (key : Query)
    (dflt : Option Nat) (r : Nat × RegState)
    (h : popQ w f s key dflt = .ok r) :
    r.2 = s ∨ ∃ c, r.2 = popDevice w f s c := by
  unfold popQ at h
  rcases hf : findQ w s f (some key) none none false with e | o
  · rw [hf] at h
    rcases e with _ | _ | _ | a | _
    · rcases dflt with _ | d0
      · cases h
      · injection h with h2
        rw [← h2]
        exact Or.inl rfl
    · cases h
    · cases h
    · cases h
    · cases h
  · rw [hf] at h
    rcases o with _ | obj
    · cases h
    · injection h with h2
      rw [← h2]
      exact Or.inr ⟨obj, rfl⟩

theorem applyOp_preserves_inv (w : World) (cfg : Bool) (fuel : Nat)
    (hinj : NamesInjective w) (s : RegState) (op : Op) (h : Inv w s) :
    Inv w (applyOp w cfg fuel s op) := by
  cases op with
  | reg c lbls wdup => exact register_preserves_inv w cfg hinj fuel s c lbls wdup h
  | popOp key dflt =>
    show Inv w (match popQ w fuel s key dflt with
      | Except.ok r => r.2
      | Except.error _ => s)
    rcases hq : popQ w fuel s key dflt with e | r
    · exact h
    · rcases popQ_state w fuel s key dflt r hq with h2 | ⟨c, h2⟩
      · show Inv w r.2
        rw [h2]
        exact h
      · show Inv w r.2
        rw [h2]
        exact popDevice_preserves_inv w hinj fuel s c h
  | clearOp => exact inv_empty w

theorem runOps_inv (w : World) (cfg : Bool) (fuel : Nat)
    (hinj : NamesInjective w) :
    ∀ ops s, Inv w s → Inv w (runOps w cfg fuel ops s) := by
  intro ops
  induction ops with
  | nil => exact fun s h => h
  | cons op t ih =>
    intro s h
    rw [runOps]
    exact ih _ (applyOp_preserves_inv w cfg fuel hinj s op h)

/-- Concrete world for C3 (witness side): one labelled component named `a`
with injective naming. -/
def wC3 : World :=
  ⟨fun d => if d = 0 then some "a" else none,
   fun d => if d = 0 then ["L"] else [],
   fun _ => false,
   fun _ => [],
   fun _ => false,
   fun _ => [],
   fun _ _ => none,
   fun _ => none,
   fun _ => none⟩

theorem wC3_names_injective : NamesInjective wC3 := by
  intro d1 d2 n h1 h2 hne
  have e1 : wC3.nameAttr d1 = (if d1 = 0 then some "a" else none) := rfl
  have e2 : wC3.nameAttr d2 = (if d2 = 0 then some "a" else none) := rfl
  rw [e1] at h1
  rw [e2] at h2
  by_cases c1 : d1 = 0
  · by_cases c2 : d2 = 0
    · rw [c1, c2]
    · rw [if_neg c2] at h2
      cases h2
  · rw [if_neg c1] at h1
    cases h1

/-- C3 counterexample: registering `0` (named `n`, label `L`) and then the
distinct component `1` under the same name leaves `0` in the label set for
`L` while the name index maps `n` to `1` — `0` is a label-set member but no
longer a value of the name index, refuting the unrestricted invariant. -/
theorem label_member_displaced_example :
    runOps wC1 true 1 [Op.reg 0 none none, Op.reg 1 none none] emptyState =
        RegState.mk [("n", 1)] [("L", [0])] ∧
      (0 : Nat) ∈ labelSetL (RegState.mk [("n", 1)] [("L", [0])]).byLabel "L" ∧
      wC1.nameAttr 0 = some "n" ∧
      ((RegState.mk [("n", 1)] [("L", [0])]).byName.all
        (fun p => p.2 != 0)) = true := by
  refine ⟨by decide, by decide, by decide, by decide⟩

/-- C3 (amended): provided no two distinct components carry the same
non-empty name, then after any sequence of `register`, `pop` and `clear`
operations from the empty registry, every label-set member with a non-empty
name is the name-index value under its own name (components with a missing or
empty name are ignored: they are never name-indexed, though an empty-named
component can sit in a label set). -/
theorem label_members_indexed_of_injective (w : World) (cfg : Bool)
    (fuel : Nat) (ops : List Op) (hinj : NamesInjective w) :
    ∀ lb d, d ∈ labelSetL (runOps w cfg fuel ops emptyState).byLabel lb →
      ∀ n, w.nameAttr d = some n → n ≠ "" →
        lookupName (runOps w cfg fuel ops emptyState).byName n = some d :=
  (runOps_inv w cfg fuel hinj ops emptyState (inv_empty w)).2

/-- C3 witness: the amended invariant applied to a concrete run registering
the labelled component `0`. -/
theorem label_members_indexed_of_injective_witness :
    NamesInjective wC3 ∧
      (0 : Nat) ∈ labelSetL (runOps wC3 true 1 [Op.reg 0 none none]
        emptyState).byLabel "L" ∧
      lookupName (runOps wC3 true 1 [Op.reg 0 none none] emptyState).byName
        "a" = some 0 :=
  ⟨wC3_names_injective, by decide,
    label_members_indexed_of_injective wC3 true 1 [Op.reg 0 none none]
      wC3_names_injective "L" 0 (by decide) "a" (by decide) (by decide)⟩

end OphydRegistry
